import Mathlib

/-!
Verification of the fetch-orchestration pipeline of the YT Subscriptions
Cleaner extension.

The development is a shallow embedding of the following source functions:

* `fetchJsonWithRetry` (src/background/youtubeApi.js, lines 50-69):
  exponential-backoff retry over a scripted list of HTTP responses;
* `isFresh` and `daysAgo` (youtubeApi.js, lines 75-86);
* `fetchLastUploadDates` (youtubeApi.js, lines 102-226): cache partition,
  batched `channels.list` resolution, per-channel `playlistItems.list`
  detail fetches, result aggregation and cache writes;
* `createLimiter` (src/background/limiter.js): a bounded-concurrency FIFO
  task queue, modelled as a state machine over submit/finish events.

Modelling conventions:

* timestamps are naturals counting milliseconds since the epoch; a scan
  runs at one frozen instant `now` (the source calls `Date.now()` during
  one scan; its drift within a scan is irrelevant to the claims);
* JavaScript `undefined` and `null` are both `Option.none`; an ISO date
  string is represented by the millisecond value it denotes (`none` for an
  absent date);
* the network is an oracle (`Network`): at the pipeline level it returns
  the *final* outcome of `fetchJsonWithRetry` for a request (parsed data or
  a classified `ApiErr`); the retry loop itself is modelled separately over
  a scripted response list;
* the pipeline is executed sequentially in task-submission (FIFO) order.
  Every detail task touches only its own channel's result and cache entry,
  so this is one faithful serialization of the limiter's interleavings;
* the scan returns, besides the result map, the trace of network calls it
  issued and the cache writes it performed, so that "no network call" and
  "cache left untouched" are stateable properties.
-/

namespace YtsCleaner

/-- Result status values of the pipeline (youtubeApi.js line 96). -/
inductive Status where
  | ok
  | no_uploads
  | api_error
  | quota_exceeded
deriving DecidableEq, Repr

/-- The error object thrown by `fetchJsonWithRetry` (lines 64-66):
`message`, `status` and the `isQuota` classification flag. -/
structure ApiErr where
  message : String
  status : Nat
  isQuota : Bool
deriving DecidableEq, Repr

/-- Whether one character sequence starts with another. -/
def seqStarts : List Char → List Char → Bool
  | [], _ => true
  | _ :: _, [] => false
  | p :: ps, c :: cs => p == c && seqStarts ps cs

/-- Whether one character sequence occurs inside another. -/
def seqContains (pat : List Char) : List Char → Bool
  | [] => seqStarts pat []
  | c :: cs => seqStarts pat (c :: cs) || seqContains pat cs

/-- JavaScript `apiMsg?.toLowerCase().includes("quota")` for a present
message: lower-case the characters and search for the substring. -/
def mentionsQuota (m : String) : Bool :=
  seqContains "quota".toList (m.toList.map Char.toLower)

/-- Builds the thrown error from the final failing response, mirroring
lines 62-66: `message = apiMsg || "HTTP_" + status` (the empty string is
falsy) and `isQuota = status === 403 && apiMsg mentions "quota"`. -/
def mkApiErr (status : Nat) (apiMsg : Option String) : ApiErr :=
  { message :=
      match apiMsg with
      | some m => if m = "" then "HTTP_" ++ toString status else m
      | none => "HTTP_" ++ toString status
    status := status
    isQuota :=
      status == 403 &&
        (match apiMsg with
         | some m => mentionsQuota m
         | none => false) }

/-- Turns a thrown error into a result status, mirroring
`e.isQuota ? "quota_exceeded" : "api_error"` (lines 162, 218). -/
def classify (e : ApiErr) : Status :=
  if e.isQuota then .quota_exceeded else .api_error

/-- A per-channel cache entry (written at youtubeApi.js lines 210-216). -/
structure CacheEntry where
  uploadsPlaylistId : Option String
  lastUploadAt : Option Nat
  lastCheckedAt : Nat
deriving DecidableEq, Repr

/-- A per-channel result entry (youtubeApi.js line 95). Fields that a
branch does not set are `none` (JavaScript `undefined`). -/
structure ResultEntry where
  lastUploadAt : Option Nat := none
  daysAgo : Option Int := none
  thresholdDays : Nat
  status : Status
  error : Option String := none
deriving DecidableEq, Repr

/-- The `daysAgo` helper (lines 81-86): `null` for an absent date,
otherwise `Math.floor((Date.now() - date) / 86400000)` as floor division
on integers. -/
def daysAgo (now : Nat) (isoDate : Option Nat) : Option Int :=
  match isoDate with
  | none => none
  | some t => some (((now : Int) - (t : Int)).fdiv 86400000)

/-- The `isFresh` helper (lines 75-79): false for an absent entry or a
falsy `lastCheckedAt`; otherwise `Date.now() - lastCheckedAt < ttl` in
milliseconds, on integers as in JavaScript. -/
def isFresh (cached : Option CacheEntry) (cacheTtlHours : Nat) (now : Nat) : Bool :=
  match cached with
  | none => false
  | some e =>
      e.lastCheckedAt != 0 &&
        decide ((now : Int) - (e.lastCheckedAt : Int) < (cacheTtlHours : Int) * 3600000)

/-- JavaScript falsiness of an optional string (`!x`): `undefined`,
`null` and `""` are falsy. -/
def jsStrFalsy : Option String → Bool
  | none => true
  | some s => s == ""

/-- JavaScript nullish coalescing `a ?? b` (the empty string is kept). -/
def jsCoalesce {β : Type} : Option β → Option β → Option β
  | some x, _ => some x
  | none, y => y

/-- Lookup in a JavaScript-object-like association list. -/
def getKey {β : Type} : List (String × β) → String → Option β
  | [], _ => none
  | (k', v) :: rest, k => if k' = k then some v else getKey rest k

/-- Assignment in a JavaScript-object-like association list: overwrites an
existing key in place, otherwise appends (insertion order preserved). -/
def setKey {β : Type} : List (String × β) → String → β → List (String × β)
  | [], k, v => [(k, v)]
  | (k', v') :: rest, k, v =>
      if k' = k then (k, v) :: rest else (k', v') :: setKey rest k v

theorem getKey_setKey_self {β : Type} (m : List (String × β)) (k : String) (v : β) :
    getKey (setKey m k v) k = some v := by
  induction m with
  | nil => simp [getKey, setKey]
  | cons p rest ih =>
      obtain ⟨k', v'⟩ := p
      by_cases h : k' = k
      · simp [getKey, setKey, h]
      · simp [getKey, setKey, h, ih]

theorem getKey_setKey_ne {β : Type} (m : List (String × β)) {k k' : String} (v : β)
    (h : k' ≠ k) : getKey (setKey m k' v) k = getKey m k := by
  induction m with
  | nil => simp [getKey, setKey, h]
  | cons p rest ih =>
      obtain ⟨k₀, v₀⟩ := p
      by_cases h0 : k₀ = k'
      · subst h0
        simp [getKey, setKey, h]
      · by_cases h1 : k₀ = k
        · simp [getKey, setKey, h0, h1, Ne.symm h]
        · simp [getKey, setKey, h0, h1, ih]

theorem getKey_isSome_iff_mem {β : Type} (m : List (String × β)) (k : String) :
    (getKey m k).isSome ↔ k ∈ m.map Prod.fst := by
  induction m with
  | nil => simp [getKey]
  | cons p rest ih =>
      obtain ⟨k', v'⟩ := p
      by_cases h : k' = k
      · simp [getKey, h]
      · simp [getKey, h, ih, Ne.symm h]

theorem setKey_map_fst {β : Type} (m : List (String × β)) (k : String) (v : β) :
    (setKey m k v).map Prod.fst =
      if k ∈ m.map Prod.fst then m.map Prod.fst else m.map Prod.fst ++ [k] := by
  induction m with
  | nil => simp [setKey]
  | cons p rest ih =>
      obtain ⟨k', v'⟩ := p
      by_cases h : k' = k
      · simp [setKey, h]
      · by_cases hk : k ∈ rest.map Prod.fst <;>
          simp [setKey, h, ih, hk, Ne.symm h]

theorem setKey_nodup {β : Type} (m : List (String × β)) (k : String) (v : β)
    (h : (m.map Prod.fst).Nodup) : ((setKey m k v).map Prod.fst).Nodup := by
  rw [setKey_map_fst]
  by_cases hk : k ∈ m.map Prod.fst
  · simpa [hk] using h
  · simp only [hk, if_false]
    simpa [List.nodup_append, hk] using h

theorem getKey_isSome_setKey {β : Type} (m : List (String × β)) (k k' : String) (v : β)
    (h : (getKey m k).isSome) : (getKey (setKey m k' v) k).isSome := by
  by_cases hk : k' = k
  · subst hk; simp [getKey_setKey_self]
  · rwa [getKey_setKey_ne _ _ hk]

/-- One HTTP response in the scripted stream consumed by the retry loop:
either `r.ok` with parsed data, or a failure with a status code and the
optional `body?.error?.message`. -/
inductive HttpResp (α : Type) where
  | success (data : α)
  | failure (status : Nat) (apiMsg : Option String)
deriving DecidableEq, Repr

/-- Observable outcome of `fetchJsonWithRetry` over a scripted response
list: the value returned or the error thrown, together with the backoff
sleeps performed (in order). `noResponse` means the script was shorter
than the number of attempts the loop makes — it never occurs on scripts
long enough for the retry budget. -/
inductive FetchOut (α : Type) where
  | ok (data : α) (sleeps : List Nat)
  | err (e : ApiErr) (sleeps : List Nat)
  | noResponse
deriving DecidableEq, Repr

/-- Whether a status code is in the retry class of line 56
(`status === 403 || status === 429`). -/
def rateLimited (s : Nat) : Bool := s == 403 || s == 429

/-- The loop body of `fetchJsonWithRetry` (lines 52-68).  `retriesLeft`
is `maxRetries - attempt`, `delay` the current backoff delay; the loop
retries only on 403/429 while retries remain, doubling the delay after
each sleep, and otherwise throws the classified error. -/
def fetchRetryGo {α : Type} (retriesLeft delay : Nat) :
    List (HttpResp α) → FetchOut α
  | [] => .noResponse
  | .success a :: _ => .ok a []
  | .failure s m :: rest =>
      if rateLimited s ∧ retriesLeft ≠ 0 then
        match fetchRetryGo (retriesLeft - 1) (delay * 2) rest with
        | .ok a sleeps => .ok a (delay :: sleeps)
        | .err e sleeps => .err e (delay :: sleeps)
        | .noResponse => .noResponse
      else
        .err (mkApiErr s m) []

/-- The `fetchJsonWithRetry` entry point (line 50): at most
`maxRetries + 1` attempts, first backoff delay 1000 ms. -/
def fetchJsonWithRetry {α : Type} (responses : List (HttpResp α))
    (maxRetries : Nat) : FetchOut α :=
  fetchRetryGo maxRetries 1000 responses

theorem rateLimited_iff (s : Nat) : rateLimited s = true ↔ s = 403 ∨ s = 429 := by
  simp [rateLimited]

/-- Characterization of the retry loop: how many sleeps happen, their
exact doubling values, which responses were consumed, and that every
response that was followed by a retry was rate-limited. -/
theorem fetchRetryGo_spec {α : Type} :
    ∀ (rs : List (HttpResp α)) (rl d : Nat),
      (∀ a sleeps, fetchRetryGo rl d rs = .ok a sleeps →
        sleeps.length ≤ rl ∧
        sleeps = (List.range sleeps.length).map (fun i => d * 2 ^ i) ∧
        rs.get? sleeps.length = some (.success a) ∧
        ∀ i < sleeps.length, ∃ s m,
          rs.get? i = some (.failure s m) ∧ rateLimited s = true) ∧
      (∀ e sleeps, fetchRetryGo rl d rs = .err e sleeps →
        sleeps.length ≤ rl ∧
        sleeps = (List.range sleeps.length).map (fun i => d * 2 ^ i) ∧
        (∃ s m, rs.get? sleeps.length = some (.failure s m) ∧
          e = mkApiErr s m ∧ (rateLimited s = true → sleeps.length = rl)) ∧
        ∀ i < sleeps.length, ∃ s m,
          rs.get? i = some (.failure s m) ∧ rateLimited s = true) := by
  intro rs
  induction rs with
  | nil =>
      intro rl d
      constructor
      · intro a sleeps h
        simp [fetchRetryGo] at h
      · intro e sleeps h
        simp [fetchRetryGo] at h
  | cons r rest ih =>
      intro rl d
      cases r with
      | success a0 =>
          constructor
          · intro a sleeps h
            simp only [fetchRetryGo] at h
            cases h with
            | refl => simp [List.get?]
          · intro e sleeps h
            simp [fetchRetryGo] at h
      | failure s m =>
          constructor
          · intro a sleeps h
            simp only [fetchRetryGo] at h
            by_cases hc : rateLimited s = true ∧ rl ≠ 0
            · rw [if_pos hc] at h
              cases hrec : fetchRetryGo (α := α) (rl - 1) (d * 2) rest with
              | ok a' sleeps' =>
                  rw [hrec] at h
                  simp only [FetchOut.ok.injEq] at h
                  obtain ⟨ha, hs⟩ := h
                  subst ha
                  subst hs
                  obtain ⟨h1, h2, h3, h4⟩ := ((ih (rl - 1) (d * 2)).1 a' sleeps' hrec)
                  refine ⟨by simp only [List.length_cons]; omega, ?_,
                    by simpa [List.get?] using h3, ?_⟩
                  · rw [List.length_cons, List.range_succ_eq_map, List.map_cons]
                    simp only [pow_zero, mul_one, List.map_map]
                    congr 1
                    conv_lhs => rw [h2]
                    apply List.map_congr_left
                    intro i _
                    simp only [Function.comp_apply, pow_succ]
                    ring
                  · intro i hi
                    cases i with
                    | zero => exact ⟨s, m, by simp [List.get?], hc.1⟩
                    | succ j =>
                        obtain ⟨s', m', hm, hrl⟩ := h4 j (by simpa using hi)
                        exact ⟨s', m', by simpa [List.get?] using hm, hrl⟩
              | err e' sleeps' => rw [hrec] at h; simp at h
              | noResponse => rw [hrec] at h; simp at h
            · rw [if_neg hc] at h
              simp at h
          · intro e sleeps h
            simp only [fetchRetryGo] at h
            by_cases hc : rateLimited s = true ∧ rl ≠ 0
            · rw [if_pos hc] at h
              cases hrec : fetchRetryGo (α := α) (rl - 1) (d * 2) rest with
              | ok a' sleeps' => rw [hrec] at h; simp at h
              | noResponse => rw [hrec] at h; simp at h
              | err e' sleeps' =>
                  rw [hrec] at h
                  simp only [FetchOut.err.injEq] at h
                  obtain ⟨ha, hs⟩ := h
                  subst ha
                  subst hs
                  obtain ⟨h1, h2, ⟨s', m', hm, he, hfin⟩, h4⟩ :=
                    ((ih (rl - 1) (d * 2)).2 e' sleeps' hrec)
                  refine ⟨by simp only [List.length_cons]; omega, ?_,
                    ⟨s', m', by simpa [List.get?] using hm, he, ?_⟩, ?_⟩
                  · rw [List.length_cons, List.range_succ_eq_map, List.map_cons]
                    simp only [pow_zero, mul_one, List.map_map]
                    congr 1
                    conv_lhs => rw [h2]
                    apply List.map_congr_left
                    intro i _
                    simp only [Function.comp_apply, pow_succ]
                    ring
                  · intro hrl
                    have := hfin hrl
                    simp only [List.length_cons]
                    omega
                  · intro i hi
                    cases i with
                    | zero => exact ⟨s, m, by simp [List.get?], hc.1⟩
                    | succ j =>
                        obtain ⟨s'', m'', hm', hrl'⟩ := h4 j (by simpa using hi)
                        exact ⟨s'', m'', by simpa [List.get?] using hm', hrl'⟩
            · rw [if_neg hc] at h
              simp only [FetchOut.err.injEq] at h
              obtain ⟨ha, hs⟩ := h
              subst hs
              refine ⟨Nat.zero_le _, by simp, ⟨s, m, by simp [List.get?], ha.symm, ?_⟩, by simp⟩
              intro hrl
              rcases Decidable.em (rl = 0) with h0 | h0
              · simp [h0]
              · exact absurd ⟨hrl, h0⟩ hc

/-- State of one `createLimiter(concurrency)` instance (limiter.js lines
8-10): the multiset of running task ids, the FIFO queue of waiting task
ids, plus two observation logs — the order in which tasks were started
and the (task, outcome) pairs delivered to the tasks' own submitters. -/
structure LimiterState where
  running : List Nat
  queue : List Nat
  started : List Nat
  delivered : List (Nat × Bool)
deriving DecidableEq, Repr

/-- The `next()` helper (limiter.js lines 12-23): if the queue is
nonempty and fewer than `concurrency` tasks are active, dequeue the head
and start it. -/
def limiterNext (concurrency : Nat) (st : LimiterState) : LimiterState :=
  match st.queue with
  | [] => st
  | t :: rest =>
      if concurrency ≤ st.running.length then st
      else { st with running := st.running ++ [t], queue := rest,
                     started := st.started ++ [t] }

/-- Events a limiter reacts to: `limit(fn)` enqueues a task and calls
`next()` (lines 25-30); a task settling (the `.finally` of lines 19-22)
removes it from the active set, records the outcome delivered to its own
submitter (`.then(resolve).catch(reject)`, lines 17-18), and calls
`next()` again. -/
inductive LEvent where
  | submit (tid : Nat)
  | finish (tid : Nat) (outcome : Bool)
deriving DecidableEq, Repr

/-- One limiter transition. -/
def limiterStep (concurrency : Nat) (st : LimiterState) (e : LEvent) : LimiterState :=
  match e with
  | .submit t => limiterNext concurrency { st with queue := st.queue ++ [t] }
  | .finish t outcome =>
      limiterNext concurrency
        { st with running := st.running.erase t,
                  delivered := st.delivered ++ [(t, outcome)] }

/-- Executes a whole event trace against a fresh limiter. -/
def limiterExec (concurrency : Nat) (events : List LEvent) : LimiterState :=
  events.foldl (limiterStep concurrency) ⟨[], [], [], []⟩

/-- The task ids submitted in a trace, in submission order. -/
def submitsOf (events : List LEvent) : List Nat :=
  events.filterMap fun e =>
    match e with
    | .submit t => some t
    | .finish _ _ => none

/-- The (task, outcome) settlements of a trace, in order. -/
def finishesOf (events : List LEvent) : List (Nat × Bool) :=
  events.filterMap fun e =>
    match e with
    | .submit _ => none
    | .finish t outcome => some (t, outcome)

/-- Replaces every task outcome by success, keeping the event shape. -/
def forgetOutcome (e : LEvent) : LEvent :=
  match e with
  | .submit t => .submit t
  | .finish t _ => .finish t true

theorem limiterNext_running_le (c : Nat) (st : LimiterState)
    (h : st.running.length ≤ c) : (limiterNext c st).running.length ≤ c := by
  unfold limiterNext
  cases hq : st.queue with
  | nil => exact h
  | cons t rest =>
      by_cases hc : c ≤ st.running.length
      · simpa [hc] using h
      · simp only [hc, if_false]
        simp only [List.length_append, List.length_cons, List.length_nil]
        omega

theorem limiterStep_running_le (c : Nat) (st : LimiterState) (e : LEvent)
    (h : st.running.length ≤ c) : (limiterStep c st e).running.length ≤ c := by
  cases e with
  | submit t => exact limiterNext_running_le _ _ h
  | finish t outcome =>
      refine limiterNext_running_le _ _ ?_
      calc (st.running.erase t).length ≤ st.running.length := List.length_erase_le _ _
        _ ≤ c := h

theorem limiterExec_aux_running_le (c : Nat) (events : List LEvent) :
    ∀ st : LimiterState, st.running.length ≤ c →
      (events.foldl (limiterStep c) st).running.length ≤ c := by
  induction events with
  | nil => intro st h; simpa using h
  | cons e rest ih =>
      intro st h
      exact ih _ (limiterStep_running_le c st e h)

theorem limiterNext_started_queue (c : Nat) (st : LimiterState) :
    (limiterNext c st).started ++ (limiterNext c st).queue = st.started ++ st.queue := by
  unfold limiterNext
  cases hq : st.queue with
  | nil => simp [hq]
  | cons t rest =>
      by_cases hc : c ≤ st.running.length
      · simp [hq, hc]
      · simp [hq, hc]

theorem limiterExec_aux_started_queue (c : Nat) (events : List LEvent) :
    ∀ st : LimiterState,
      (events.foldl (limiterStep c) st).started ++ (events.foldl (limiterStep c) st).queue =
        st.started ++ st.queue ++ submitsOf events := by
  induction events with
  | nil => intro st; simp [submitsOf]
  | cons e rest ih =>
      intro st
      rw [List.foldl_cons, ih]
      cases e with
      | submit t =>
          have := limiterNext_started_queue c { st with queue := st.queue ++ [t] }
          simp only [limiterStep]
          rw [this]
          simp [submitsOf, List.filterMap_cons]
      | finish t outcome =>
          have := limiterNext_started_queue c
            { st with running := st.running.erase t,
                      delivered := st.delivered ++ [(t, outcome)] }
          simp only [limiterStep]
          rw [this]
          simp [submitsOf, List.filterMap_cons]

theorem limiterNext_delivered (c : Nat) (st : LimiterState) :
    (limiterNext c st).delivered = st.delivered := by
  unfold limiterNext
  cases hq : st.queue with
  | nil => simp [hq]
  | cons t rest =>
      by_cases hc : c ≤ st.running.length
      · simp [hq, hc]
      · simp [hq, hc]

theorem limiterExec_aux_delivered (c : Nat) (events : List LEvent) :
    ∀ st : LimiterState,
      (events.foldl (limiterStep c) st).delivered = st.delivered ++ finishesOf events := by
  induction events with
  | nil => intro st; simp [finishesOf]
  | cons e rest ih =>
      intro st
      rw [List.foldl_cons, ih]
      cases e with
      | submit t =>
          simp only [limiterStep]
          rw [limiterNext_delivered]
          simp [finishesOf, List.filterMap_cons]
      | finish t outcome =>
          simp only [limiterStep]
          rw [limiterNext_delivered]
          simp [finishesOf, List.filterMap_cons]

theorem limiterNext_sched (c : Nat) (st st' : LimiterState)
    (hr : st.running = st'.running) (hq : st.queue = st'.queue)
    (hs : st.started = st'.started) :
    (limiterNext c st).running = (limiterNext c st').running ∧
      (limiterNext c st).queue = (limiterNext c st').queue ∧
      (limiterNext c st).started = (limiterNext c st').started := by
  obtain ⟨r, q, sd, dv⟩ := st
  obtain ⟨r', q', sd', dv'⟩ := st'
  simp only at hr hq hs
  subst hr
  subst hq
  subst hs
  unfold limiterNext
  cases q with
  | nil => exact ⟨rfl, rfl, rfl⟩
  | cons t rest =>
      by_cases hc : c ≤ r.length
      · simp [hc]
      · simp [hc]

theorem limiterExec_aux_sched (c : Nat) (events : List LEvent) :
    ∀ st st' : LimiterState,
      st.running = st'.running → st.queue = st'.queue → st.started = st'.started →
      ((events.map forgetOutcome).foldl (limiterStep c) st').running =
          (events.foldl (limiterStep c) st).running ∧
        ((events.map forgetOutcome).foldl (limiterStep c) st').queue =
          (events.foldl (limiterStep c) st).queue ∧
        ((events.map forgetOutcome).foldl (limiterStep c) st').started =
          (events.foldl (limiterStep c) st).started := by
  induction events with
  | nil =>
      intro st st' hr hq hs
      exact ⟨hr.symm, hq.symm, hs.symm⟩
  | cons e rest ih =>
      intro st st' hr hq hs
      simp only [List.map_cons, List.foldl_cons]
      apply ih
      all_goals
        cases e with
        | submit t =>
            simp only [forgetOutcome, limiterStep]
            have := limiterNext_sched c { st with queue := st.queue ++ [t] }
              { st' with queue := st'.queue ++ [t] } (by simp [hr]) (by simp [hq]) (by simp [hs])
            tauto
        | finish t outcome =>
            simp only [forgetOutcome, limiterStep]
            have := limiterNext_sched c
              { st with running := st.running.erase t,
                        delivered := st.delivered ++ [(t, outcome)] }
              { st' with running := st'.running.erase t,
                         delivered := st'.delivered ++ [(t, true)] }
              (by simp [hr]) (by simp [hq]) (by simp [hs])
            tauto

/-- Scan configuration (youtubeApi.js line 107 destructuring; the api key
is opaque and omitted — it only flows into URLs). -/
structure Settings where
  thresholdDays : Nat
  cacheTtlHours : Nat
  concurrency : Nat
deriving DecidableEq, Repr

/-- An element of the `toFetch` work list (youtubeApi.js lines 127-130). -/
structure ToFetch where
  channelId : String
  cachedPlaylistId : Option String
deriving DecidableEq, Repr

/-- One item of a `channels.list` response: the channel id and
`item.contentDetails?.relatedPlaylists?.uploads ?? null` (lines 153-155). -/
structure BatchItem where
  id : String
  uploads : Option String
deriving DecidableEq, Repr

/-- One item of a `playlistItems.list` response. The source reads
`contentDetails.videoPublishedAt`; the generic `publishedAt` field is
also carried so that responses where only the fallback is present are
representable. -/
structure DetailItem where
  videoPublishedAt : Option Nat
  publishedAt : Option Nat
deriving DecidableEq, Repr

/-- A network call issued by the pipeline, as recorded in the trace: a
batched `channels.list` call with the ids of the chunk, or a
`playlistItems.list` call, tagged with the channel on whose behalf it was
issued and the playlist id requested. -/
inductive Call where
  | batch (ids : List String)
  | detail (channelId : String) (playlistId : String)
deriving DecidableEq, Repr

/-- Whether a trace entry is a batched `channels.list` call. -/
def isBatchCall : Call → Bool
  | .batch _ => true
  | .detail _ _ => false

/-- The network oracle: the final outcome of `fetchJsonWithRetry` for a
`channels.list` chunk or for a `playlistItems.list` request. -/
structure Network where
  batch : List String → Except ApiErr (List BatchItem)
  detail : String → Except ApiErr (List DetailItem)

/-- The mutable state of one `fetchLastUploadDates` run: the `results`
object, the `playlistIdMap` object (a present key with value `none`
records an explicit `null`), plus the trace of issued network calls and
performed cache writes. -/
structure ScanState where
  results : List (String × ResultEntry)
  playlistIdMap : List (String × Option String)
  calls : List Call
  cacheWrites : List (String × CacheEntry)
deriving DecidableEq, Repr

/-- The result entry built from a cache hit or from a successful detail
response (lines 120-125 and 202-207 — both build the same shape from a
`lastUploadAt`): status `ok` iff the timestamp is present. -/
def uploadResult (thresholdDays now : Nat) (lastUploadAt : Option Nat) : ResultEntry :=
  { lastUploadAt := lastUploadAt
    daysAgo := daysAgo now lastUploadAt
    thresholdDays := thresholdDays
    status := if lastUploadAt.isSome then .ok else .no_uploads }

/-- The result entry recorded when a call failed (lines 162-164 and
218-219): classified status plus the error message. -/
def errorResult (thresholdDays : Nat) (e : ApiErr) : ResultEntry :=
  { thresholdDays := thresholdDays
    status := classify e
    error := some e.message }

/-- The result entry for a channel without a usable uploads playlist
(lines 178-183). -/
def noUploadsResult (thresholdDays : Nat) : ResultEntry :=
  { daysAgo := none
    thresholdDays := thresholdDays
    status := .no_uploads }

/-- The chunks visited by the batching loop of lines 144-145
(`for (i = 0; i < length; i += 50) slice(i, i + 50)`). -/
def chunks50 {γ : Type} (l : List γ) : List (List γ) :=
  (List.range ((l.length + 49) / 50)).map fun j => (l.drop (50 * j)).take 50

/-- The freshness condition of line 118:
`!bypassCache && isFresh(entry, cacheTtlHours)`. -/
def servedFromCache (cache : String → Option CacheEntry) (cacheTtlHours now : Nat)
    (bypassCache : Bool) (channelId : String) : Bool :=
  !bypassCache && isFresh (cache channelId) cacheTtlHours now

/-- One iteration of the partition loop of lines 116-132: a fresh entry
is turned into a cache-hit result, anything else is appended to the
`toFetch` list, keeping `entry?.uploadsPlaylistId ?? null`. -/
def partitionStep (cache : String → Option CacheEntry)
    (cacheTtlHours thresholdDays now : Nat) (bypassCache : Bool)
    (acc : List (String × ResultEntry) × List ToFetch) (channelId : String) :
    List (String × ResultEntry) × List ToFetch :=
  let entry := cache channelId
  if servedFromCache cache cacheTtlHours now bypassCache channelId then
    (setKey acc.1 channelId
      (uploadResult thresholdDays now (entry.bind (·.lastUploadAt))), acc.2)
  else
    (acc.1,
     acc.2 ++ [{ channelId := channelId,
                 cachedPlaylistId := entry.bind (·.uploadsPlaylistId) }])

/-- Stage 1 of `fetchLastUploadDates` (lines 116-132): partition the
channel ids by cache freshness, building cache-hit results and the
`toFetch` work list. -/
def partitionCache (cache : String → Option CacheEntry)
    (cacheTtlHours thresholdDays now : Nat) (bypassCache : Bool)
    (channelIds : List String) :
    List (String × ResultEntry) × List ToFetch :=
  channelIds.foldl (partitionStep cache cacheTtlHours thresholdDays now bypassCache)
    ([], [])

/-- One iteration of the batching loop of lines 144-167: record the
`channels.list` call; on success, fold the response items into
`playlistIdMap` and backfill an explicit `null` for every chunk id absent
from the map; on failure, record a classified error result for every id
of the chunk. -/
def batchStep (net : Network) (thresholdDays : Nat) (st : ScanState)
    (batch : List String) : ScanState :=
  let st := { st with calls := st.calls ++ [Call.batch batch] }
  match net.batch batch with
  | .ok data =>
      let pm := data.foldl (fun pm item => setKey pm item.id item.uploads)
        st.playlistIdMap
      let pm := batch.foldl
        (fun pm cid => if (getKey pm cid).isSome then pm else setKey pm cid none) pm
      { st with playlistIdMap := pm }
  | .error e =>
      let results := batch.foldl
        (fun r cid => setKey r cid (errorResult thresholdDays e)) st.results
      { st with results := results }

/-- Stage 2 of `fetchLastUploadDates`: the whole batching loop. -/
def batchPhase (net : Network) (thresholdDays : Nat) (st : ScanState)
    (chunks : List (List String)) : ScanState :=
  chunks.foldl (batchStep net thresholdDays) st

/-- The playlist id used for a channel (line 176):
`cachedPlaylistId ?? playlistIdMap[channelId]`. -/
def resolvedPid (pm : List (String × Option String)) (tf : ToFetch) : Option String :=
  jsCoalesce tf.cachedPlaylistId ((getKey pm tf.channelId).join)

/-- The synchronous part of one iteration of the `toFetch.map` of lines
172-185, which runs before any detail response arrives: skip a channel
already in `results` (batch failure), resolve the playlist id, record
`no_uploads` for a falsy playlist id, and otherwise emit a detail-fetch
task. -/
def detailPlan (thresholdDays : Nat) (st : ScanState) (tf : ToFetch) :
    ScanState × Option (String × String) :=
  if (getKey st.results tf.channelId).isSome then (st, none)
  else
    let uploadsPlaylistId := resolvedPid st.playlistIdMap tf
    if jsStrFalsy uploadsPlaylistId then
      let results := setKey st.results tf.channelId (noUploadsResult thresholdDays)
      ({ st with results := results }, none)
    else
      (st, some (tf.channelId, uploadsPlaylistId.getD ""))

/-- Stage 3a: one step of the synchronous pass over `toFetch`,
accumulating the detail-fetch tasks in submission order. -/
def planStep (thresholdDays : Nat)
    (acc : ScanState × List (String × String)) (tf : ToFetch) :
    ScanState × List (String × String) :=
  let p := detailPlan thresholdDays acc.1 tf
  (p.1, acc.2 ++ p.2.toList)

/-- Continued: the whole synchronous pass. -/
def planPhase (thresholdDays : Nat) (st : ScanState) (toFetch : List ToFetch) :
    ScanState × List (String × String) :=
  toFetch.foldl (planStep thresholdDays) (st, [])

/-- The asynchronous body of one detail-fetch task (lines 187-221): issue
the `playlistItems.list` call; on success take
`items?.[0]?.contentDetails?.videoPublishedAt ?? null`, record the result
and overwrite the cache entry; on failure record the classified error and
leave the cache alone. -/
def runDetailTask (net : Network) (thresholdDays now : Nat) (st : ScanState)
    (task : String × String) : ScanState :=
  match net.detail task.2 with
  | .ok data =>
      let lastUploadAt := data.head?.bind (·.videoPublishedAt)
      { st with
        results := setKey st.results task.1 (uploadResult thresholdDays now lastUploadAt)
        calls := st.calls ++ [Call.detail task.1 task.2]
        cacheWrites := st.cacheWrites ++
          [(task.1, { uploadsPlaylistId := some task.2,
                      lastUploadAt := lastUploadAt,
                      lastCheckedAt := now })] }
  | .error e =>
      { st with
        results := setKey st.results task.1 (errorResult thresholdDays e)
        calls := st.calls ++ [Call.detail task.1 task.2] }

/-- Stage 3b: run the detail-fetch tasks (sequentially, in submission
order — one faithful serialization of the limiter's schedule, since each
task touches only its own channel's result and cache entry). -/
def taskPhase (net : Network) (thresholdDays now : Nat) (st : ScanState)
    (tasks : List (String × String)) : ScanState :=
  tasks.foldl (runDetailTask net thresholdDays now) st

/-- The `fetchLastUploadDates` entry point (lines 102-226), composed of
the stages above. An empty `toFetch` returns the cache-hit results with
no network call (line 134). -/
def fetchLastUploadDates (net : Network) (cache : String → Option CacheEntry)
    (now : Nat) (channelIds : List String) (settings : Settings)
    (bypassCache : Bool) : ScanState :=
  let part := partitionCache cache settings.cacheTtlHours settings.thresholdDays
    now bypassCache channelIds
  if part.2.isEmpty then
    { results := part.1, playlistIdMap := [], calls := [], cacheWrites := [] }
  else
    let needPlaylistId :=
      (part.2.filter fun c => jsStrFalsy c.cachedPlaylistId).map (·.channelId)
    let st1 := batchPhase net settings.thresholdDays
      { results := part.1, playlistIdMap := [], calls := [], cacheWrites := [] }
      (chunks50 needPlaylistId)
    let planned := planPhase settings.thresholdDays st1 part.2
    taskPhase net settings.thresholdDays now planned.1 planned.2

/-- Applies the cache writes of a scan to a cache snapshot
(`chrome.storage.local.set`, last write wins). -/
def applyWrites (cache : String → Option CacheEntry)
    (writes : List (String × CacheEntry)) : String → Option CacheEntry :=
  writes.foldl
    (fun c w => fun cid => if cid = w.1 then some w.2 else c cid) cache

section PartitionLemmas

variable (cache : String → Option CacheEntry) (cacheTtlHours thresholdDays now : Nat)
variable (bypassCache : Bool)

theorem partition_foldl_snd (channelIds : List String) :
    ∀ acc : List (String × ResultEntry) × List ToFetch,
      (channelIds.foldl
        (partitionStep cache cacheTtlHours thresholdDays now bypassCache) acc).2 =
      acc.2 ++ channelIds.filterMap fun channelId =>
        if servedFromCache cache cacheTtlHours now bypassCache channelId then none
        else some { channelId := channelId,
                    cachedPlaylistId := (cache channelId).bind (·.uploadsPlaylistId) } := by
  induction channelIds with
  | nil => intro acc; simp
  | cons cid rest ih =>
      intro acc
      rw [List.foldl_cons, ih]
      by_cases h : servedFromCache cache cacheTtlHours now bypassCache cid
      · simp [partitionStep, h, List.filterMap_cons]
      · simp [partitionStep, h, List.filterMap_cons]

theorem partitionCache_snd (channelIds : List String) :
    (partitionCache cache cacheTtlHours thresholdDays now bypassCache channelIds).2 =
      channelIds.filterMap fun channelId =>
        if servedFromCache cache cacheTtlHours now bypassCache channelId then none
        else some { channelId := channelId,
                    cachedPlaylistId := (cache channelId).bind (·.uploadsPlaylistId) } := by
  unfold partitionCache
  rw [partition_foldl_snd]
  simp

theorem partition_foldl_getKey (channelIds : List String) :
    ∀ (acc : List (String × ResultEntry) × List ToFetch) (k : String),
      getKey (channelIds.foldl
        (partitionStep cache cacheTtlHours thresholdDays now bypassCache) acc).1 k =
      if k ∈ channelIds ∧
          servedFromCache cache cacheTtlHours now bypassCache k = true then
        some (uploadResult thresholdDays now ((cache k).bind (·.lastUploadAt)))
      else getKey acc.1 k := by
  induction channelIds with
  | nil => intro acc k; simp
  | cons cid rest ih =>
      intro acc k
      rw [List.foldl_cons, ih]
      by_cases hs : servedFromCache cache cacheTtlHours now bypassCache cid
      · by_cases hk : k = cid
        · subst hk
          by_cases hr : k ∈ rest
          · simp [hs, hr, partitionStep, getKey_setKey_self]
          · simp [hs, hr, partitionStep, getKey_setKey_self]
        · have : getKey (partitionStep cache cacheTtlHours thresholdDays now bypassCache
              acc cid).1 k = getKey acc.1 k := by
            simp only [partitionStep, hs, if_true]
            exact getKey_setKey_ne _ _ (Ne.symm hk)
          rw [this]
          by_cases hr : k ∈ rest
          · simp [hr]
          · simp [hr, hk]
      · have : (partitionStep cache cacheTtlHours thresholdDays now bypassCache
            acc cid).1 = acc.1 := by
          simp [partitionStep, hs]
        rw [this]
        by_cases hk : k = cid
        · subst hk
          by_cases hr : k ∈ rest
          · simp [hr]
          · simp [hr, hs]
        · by_cases hr : k ∈ rest
          · simp [hr]
          · simp [hr, hk]

theorem partitionCache_getKey (channelIds : List String) (k : String) :
    getKey (partitionCache cache cacheTtlHours thresholdDays now bypassCache
      channelIds).1 k =
      if k ∈ channelIds ∧
          servedFromCache cache cacheTtlHours now bypassCache k = true then
        some (uploadResult thresholdDays now ((cache k).bind (·.lastUploadAt)))
      else none := by
  unfold partitionCache
  rw [partition_foldl_getKey]
  simp [getKey]

theorem partition_foldl_nodup (channelIds : List String) :
    ∀ acc : List (String × ResultEntry) × List ToFetch,
      (acc.1.map Prod.fst).Nodup →
      ((channelIds.foldl
        (partitionStep cache cacheTtlHours thresholdDays now bypassCache) acc).1.map
          Prod.fst).Nodup := by
  induction channelIds with
  | nil => intro acc h; simpa using h
  | cons cid rest ih =>
      intro acc h
      rw [List.foldl_cons]
      apply ih
      by_cases hs : servedFromCache cache cacheTtlHours now bypassCache cid
      · simp only [partitionStep, hs, if_true]
        exact setKey_nodup _ _ _ h
      · simpa [partitionStep, hs] using h

theorem partitionCache_nodup (channelIds : List String) :
    ((partitionCache cache cacheTtlHours thresholdDays now bypassCache
      channelIds).1.map Prod.fst).Nodup := by
  unfold partitionCache
  exact partition_foldl_nodup _ _ _ _ _ _ _ (by simp)

end PartitionLemmas

section BatchLemmas

theorem foldl_setKey_const_getKey {β : Type} (l : List String) (v : β) :
    ∀ (r0 : List (String × β)) (k : String),
      getKey (l.foldl (fun r cid => setKey r cid v) r0) k =
        if k ∈ l then some v else getKey r0 k := by
  induction l with
  | nil => intro r0 k; simp
  | cons cid rest ih =>
      intro r0 k
      rw [List.foldl_cons, ih]
      by_cases hk : k = cid
      · subst hk
        by_cases hr : k ∈ rest
        · simp [hr]
        · simp [hr, getKey_setKey_self]
      · by_cases hr : k ∈ rest
        · simp [hr]
        · simp [hr, hk, getKey_setKey_ne _ _ (Ne.symm hk)]

theorem foldl_setKey_const_nodup {β : Type} (l : List String) (v : β) :
    ∀ r0 : List (String × β), (r0.map Prod.fst).Nodup →
      ((l.foldl (fun r cid => setKey r cid v) r0).map Prod.fst).Nodup := by
  induction l with
  | nil => intro r0 h; simpa using h
  | cons cid rest ih =>
      intro r0 h
      rw [List.foldl_cons]
      exact ih _ (setKey_nodup _ _ _ h)

theorem foldl_setKey_items_getKey (chunk : List String) (f : String → Option String) :
    ∀ (pm0 : List (String × Option String)) (k : String),
      getKey ((chunk.map fun cid => BatchItem.mk cid (f cid)).foldl
        (fun pm item => setKey pm item.id item.uploads) pm0) k =
        if k ∈ chunk then some (f k) else getKey pm0 k := by
  induction chunk with
  | nil => intro pm0 k; simp
  | cons cid rest ih =>
      intro pm0 k
      rw [List.map_cons, List.foldl_cons, ih]
      by_cases hk : k = cid
      · subst hk
        by_cases hr : k ∈ rest
        · simp [hr]
        · simp [hr, getKey_setKey_self]
      · by_cases hr : k ∈ rest
        · simp [hr]
        · simp [hr, hk, getKey_setKey_ne _ _ (Ne.symm hk)]

theorem backfill_eq_of_isSome (batch : List String) :
    ∀ pm : List (String × Option String), (∀ cid ∈ batch, (getKey pm cid).isSome) →
      batch.foldl
        (fun pm cid => if (getKey pm cid).isSome then pm else setKey pm cid none) pm =
        pm := by
  induction batch with
  | nil => intro pm _; rfl
  | cons cid rest ih =>
      intro pm h
      rw [List.foldl_cons]
      have hc := h cid (by simp)
      rw [if_pos hc]
      exact ih pm fun c hcm => h c (by simp [hcm])

theorem batchStep_calls (net : Network) (thresholdDays : Nat) (st : ScanState)
    (batch : List String) :
    (batchStep net thresholdDays st batch).calls = st.calls ++ [Call.batch batch] := by
  unfold batchStep
  cases net.batch batch with
  | ok data => rfl
  | error e => rfl

theorem batchStep_cacheWrites (net : Network) (thresholdDays : Nat) (st : ScanState)
    (batch : List String) :
    (batchStep net thresholdDays st batch).cacheWrites = st.cacheWrites := by
  unfold batchStep
  cases net.batch batch with
  | ok data => rfl
  | error e => rfl

theorem batchStep_results_frame (net : Network) (thresholdDays : Nat) (st : ScanState)
    (batch : List String) (k : String) (hk : k ∉ batch) :
    getKey (batchStep net thresholdDays st batch).results k = getKey st.results k := by
  unfold batchStep
  cases net.batch batch with
  | ok data => rfl
  | error e => simp [foldl_setKey_const_getKey, hk]

theorem batchStep_results_isSome (net : Network) (thresholdDays : Nat) (st : ScanState)
    (batch : List String) (k : String) (h : (getKey st.results k).isSome) :
    (getKey (batchStep net thresholdDays st batch).results k).isSome := by
  unfold batchStep
  cases net.batch batch with
  | ok data => exact h
  | error e =>
      simp only [foldl_setKey_const_getKey]
      by_cases hk : k ∈ batch
      · simp [hk]
      · simpa [hk] using h

theorem batchStep_results_nodup (net : Network) (thresholdDays : Nat) (st : ScanState)
    (batch : List String) (h : (st.results.map Prod.fst).Nodup) :
    ((batchStep net thresholdDays st batch).results.map Prod.fst).Nodup := by
  unfold batchStep
  cases net.batch batch with
  | ok data => exact h
  | error e => exact foldl_setKey_const_nodup _ _ _ h

theorem batchPhase_calls (net : Network) (thresholdDays : Nat)
    (chunks : List (List String)) :
    ∀ st : ScanState, (batchPhase net thresholdDays st chunks).calls =
      st.calls ++ chunks.map Call.batch := by
  induction chunks with
  | nil => intro st; simp [batchPhase]
  | cons c rest ih =>
      intro st
      unfold batchPhase at ih ⊢
      rw [List.foldl_cons, ih, batchStep_calls]
      simp

theorem batchPhase_cacheWrites (net : Network) (thresholdDays : Nat)
    (chunks : List (List String)) :
    ∀ st : ScanState,
      (batchPhase net thresholdDays st chunks).cacheWrites = st.cacheWrites := by
  induction chunks with
  | nil => intro st; simp [batchPhase]
  | cons c rest ih =>
      intro st
      unfold batchPhase at ih ⊢
      rw [List.foldl_cons, ih, batchStep_cacheWrites]

theorem batchPhase_results_frame (net : Network) (thresholdDays : Nat)
    (chunks : List (List String)) :
    ∀ (st : ScanState) (k : String), (∀ c ∈ chunks, k ∉ c) →
      getKey (batchPhase net thresholdDays st chunks).results k =
        getKey st.results k := by
  induction chunks with
  | nil => intro st k _; simp [batchPhase]
  | cons c rest ih =>
      intro st k h
      unfold batchPhase at ih ⊢
      rw [List.foldl_cons, ih _ _ fun c hc => h c (by simp [hc]),
        batchStep_results_frame _ _ _ _ _ (h c (by simp))]

theorem batchPhase_results_isSome (net : Network) (thresholdDays : Nat)
    (chunks : List (List String)) :
    ∀ (st : ScanState) (k : String), (getKey st.results k).isSome →
      (getKey (batchPhase net thresholdDays st chunks).results k).isSome := by
  induction chunks with
  | nil => intro st k h; simpa [batchPhase] using h
  | cons c rest ih =>
      intro st k h
      unfold batchPhase at ih ⊢
      rw [List.foldl_cons]
      exact ih _ _ (batchStep_results_isSome _ _ _ _ _ h)

theorem batchPhase_results_keys (net : Network) (thresholdDays : Nat)
    (chunks : List (List String)) :
    ∀ (st : ScanState) (k : String),
      (getKey (batchPhase net thresholdDays st chunks).results k).isSome →
      (getKey st.results k).isSome ∨ ∃ c ∈ chunks, k ∈ c := by
  induction chunks with
  | nil => intro st k h; left; simpa [batchPhase] using h
  | cons c rest ih =>
      intro st k h
      unfold batchPhase at ih h
      rw [List.foldl_cons] at h
      rcases ih _ _ h with h' | ⟨c', hc', hk⟩
      · by_cases hk : k ∈ c
        · exact Or.inr ⟨c, by simp, hk⟩
        · rw [batchStep_results_frame _ _ _ _ _ hk] at h'
          exact Or.inl h'
      · exact Or.inr ⟨c', by simp [hc'], hk⟩

theorem batchPhase_results_nodup (net : Network) (thresholdDays : Nat)
    (chunks : List (List String)) :
    ∀ st : ScanState, (st.results.map Prod.fst).Nodup →
      ((batchPhase net thresholdDays st chunks).results.map Prod.fst).Nodup := by
  induction chunks with
  | nil => intro st h; simpa [batchPhase] using h
  | cons c rest ih =>
      intro st h
      unfold batchPhase at ih ⊢
      rw [List.foldl_cons]
      exact ih _ (batchStep_results_nodup _ _ _ _ h)

end BatchLemmas

section TaskLemmas

/-- The last element of a keyed list carrying a given key, if any (the
winning entry under repeated JavaScript-object assignment). -/
def lastFor {β : Type} (k : String) : List (String × β) → Option (String × β)
  | [] => none
  | t :: rest =>
      match lastFor k rest with
      | some u => some u
      | none => if t.1 = k then some t else none

theorem lastFor_eq_none {β : Type} (k : String) (l : List (String × β))
    (h : ∀ t ∈ l, t.1 ≠ k) : lastFor k l = none := by
  induction l with
  | nil => rfl
  | cons t rest ih =>
      simp only [lastFor, ih fun u hu => h u (by simp [hu])]
      simp [h t (by simp)]

theorem lastFor_isSome {β : Type} (k : String) (l : List (String × β))
    (t : String × β) (ht : t ∈ l) (hk : t.1 = k) : (lastFor k l).isSome := by
  induction l with
  | nil => simp at ht
  | cons u rest ih =>
      simp only [lastFor]
      cases hrec : lastFor k rest with
      | some w => simp
      | none =>
          rcases List.mem_cons.mp ht with h | h
          · subst h; simp [hk]
          · have := ih h
            rw [hrec] at this
            simp at this

theorem lastFor_spec {β : Type} (k : String) (l : List (String × β))
    (u : String × β) (h : lastFor k l = some u) : u ∈ l ∧ u.1 = k := by
  induction l with
  | nil => simp [lastFor] at h
  | cons t rest ih =>
      simp only [lastFor] at h
      cases hrec : lastFor k rest with
      | some w =>
          rw [hrec] at h
          obtain ⟨hm, hk⟩ := ih (hrec.trans (by injection h with h; rw [h]))
          cases h
          exact ⟨by simp [hm], hk⟩
      | none =>
          rw [hrec] at h
          by_cases hk : t.1 = k
          · rw [if_pos hk] at h
            cases h
            exact ⟨by simp, hk⟩
          · simp [hk] at h

theorem lastFor_append {β : Type} (k : String) (l₁ l₂ : List (String × β)) :
    lastFor k (l₁ ++ l₂) =
      match lastFor k l₂ with
      | some u => some u
      | none => lastFor k l₁ := by
  induction l₁ with
  | nil =>
      simp only [List.nil_append]
      cases lastFor k l₂ with
      | some u => rfl
      | none => rfl
  | cons t rest ih =>
      cases h2 : lastFor k l₂ with
      | some u => simp only [List.cons_append, lastFor, List.append_eq, ih, h2]
      | none => simp only [List.cons_append, lastFor, List.append_eq, ih, h2]

/-- The result entry a detail-fetch task for playlist `pid` records,
as a function of the oracle (lines 195-207 versus 217-219). -/
def taskOutcome (net : Network) (thresholdDays now : Nat) (pid : String) : ResultEntry :=
  match net.detail pid with
  | .ok data => uploadResult thresholdDays now (data.head?.bind (·.videoPublishedAt))
  | .error e => errorResult thresholdDays e

/-- The cache write a detail-fetch task performs: only on success
(lines 209-216); a failing task writes nothing. -/
def taskWrite (net : Network) (now : Nat) (task : String × String) :
    Option (String × CacheEntry) :=
  match net.detail task.2 with
  | .ok data =>
      some (task.1, { uploadsPlaylistId := some task.2,
                      lastUploadAt := data.head?.bind (·.videoPublishedAt),
                      lastCheckedAt := now })
  | .error _ => none

theorem runDetailTask_eq (net : Network) (thresholdDays now : Nat) (st : ScanState)
    (task : String × String) :
    runDetailTask net thresholdDays now st task =
      { st with
        results := setKey st.results task.1 (taskOutcome net thresholdDays now task.2)
        calls := st.calls ++ [Call.detail task.1 task.2]
        cacheWrites := st.cacheWrites ++ (taskWrite net now task).toList } := by
  unfold runDetailTask taskOutcome taskWrite
  cases net.detail task.2 with
  | ok data => simp
  | error e => simp

theorem taskPhase_calls (net : Network) (thresholdDays now : Nat)
    (tasks : List (String × String)) :
    ∀ st : ScanState, (taskPhase net thresholdDays now st tasks).calls =
      st.calls ++ tasks.map fun t => Call.detail t.1 t.2 := by
  induction tasks with
  | nil => intro st; simp [taskPhase]
  | cons t rest ih =>
      intro st
      unfold taskPhase at ih ⊢
      rw [List.foldl_cons, ih, runDetailTask_eq]
      simp

theorem taskPhase_cacheWrites (net : Network) (thresholdDays now : Nat)
    (tasks : List (String × String)) :
    ∀ st : ScanState, (taskPhase net thresholdDays now st tasks).cacheWrites =
      st.cacheWrites ++ tasks.filterMap (taskWrite net now) := by
  induction tasks with
  | nil => intro st; simp [taskPhase]
  | cons t rest ih =>
      intro st
      unfold taskPhase at ih ⊢
      rw [List.foldl_cons, ih, runDetailTask_eq]
      cases hw : taskWrite net now t with
      | some w => simp [List.filterMap_cons, hw]
      | none => simp [List.filterMap_cons, hw]

theorem taskPhase_playlistIdMap (net : Network) (thresholdDays now : Nat)
    (tasks : List (String × String)) :
    ∀ st : ScanState, (taskPhase net thresholdDays now st tasks).playlistIdMap =
      st.playlistIdMap := by
  induction tasks with
  | nil => intro st; simp [taskPhase]
  | cons t rest ih =>
      intro st
      unfold taskPhase at ih ⊢
      rw [List.foldl_cons, ih, runDetailTask_eq]

theorem taskPhase_getKey (net : Network) (thresholdDays now : Nat)
    (tasks : List (String × String)) :
    ∀ (st : ScanState) (k : String),
      getKey (taskPhase net thresholdDays now st tasks).results k =
        match lastFor k tasks with
        | some u => some (taskOutcome net thresholdDays now u.2)
        | none => getKey st.results k := by
  induction tasks with
  | nil => intro st k; simp [taskPhase, lastFor]
  | cons t rest ih =>
      intro st k
      unfold taskPhase at ih ⊢
      rw [List.foldl_cons, ih, runDetailTask_eq]
      simp only [lastFor]
      cases hrec : lastFor k rest with
      | some u => rfl
      | none =>
          by_cases hk : t.1 = k
          · simp only [hk, if_pos rfl]
            subst hk
            simp [getKey_setKey_self]
          · simp only [if_neg hk]
            exact getKey_setKey_ne _ _ hk

theorem taskPhase_results_nodup (net : Network) (thresholdDays now : Nat)
    (tasks : List (String × String)) :
    ∀ st : ScanState, (st.results.map Prod.fst).Nodup →
      ((taskPhase net thresholdDays now st tasks).results.map Prod.fst).Nodup := by
  induction tasks with
  | nil => intro st h; simpa [taskPhase] using h
  | cons t rest ih =>
      intro st h
      unfold taskPhase at ih ⊢
      rw [List.foldl_cons]
      refine ih _ ?_
      rw [runDetailTask_eq]
      exact setKey_nodup _ _ _ h

theorem taskWrite_fst (net : Network) (now : Nat) (task : String × String)
    (w : String × CacheEntry) (h : taskWrite net now task = some w) :
    w.1 = task.1 := by
  unfold taskWrite at h
  cases hx : net.detail task.2 with
  | ok data => rw [hx] at h; cases h; rfl
  | error e => rw [hx] at h; simp at h

end TaskLemmas

section PlanLemmas

theorem detailPlan_skip (thresholdDays : Nat) (st : ScanState) (tf : ToFetch)
    (h : (getKey st.results tf.channelId).isSome) :
    detailPlan thresholdDays st tf = (st, none) := by
  unfold detailPlan
  rw [if_pos h]

theorem detailPlan_falsy (thresholdDays : Nat) (st : ScanState) (tf : ToFetch)
    (h : getKey st.results tf.channelId = none)
    (hf : jsStrFalsy (resolvedPid st.playlistIdMap tf) = true) :
    detailPlan thresholdDays st tf =
      ({ st with results :=
            setKey st.results tf.channelId (noUploadsResult thresholdDays) },
       none) := by
  unfold detailPlan
  rw [h]
  simp [hf]

theorem detailPlan_task (thresholdDays : Nat) (st : ScanState) (tf : ToFetch)
    (h : getKey st.results tf.channelId = none)
    (hf : jsStrFalsy (resolvedPid st.playlistIdMap tf) = false) :
    detailPlan thresholdDays st tf =
      (st, some (tf.channelId, (resolvedPid st.playlistIdMap tf).getD "")) := by
  unfold detailPlan
  rw [h]
  simp [hf]

theorem detailPlan_playlistIdMap (thresholdDays : Nat) (st : ScanState) (tf : ToFetch) :
    (detailPlan thresholdDays st tf).1.playlistIdMap = st.playlistIdMap := by
  unfold detailPlan
  by_cases h : (getKey st.results tf.channelId).isSome
  · rw [if_pos h]
  · rw [if_neg h]
    by_cases hf : jsStrFalsy (resolvedPid st.playlistIdMap tf) <;> simp [hf]

theorem detailPlan_calls (thresholdDays : Nat) (st : ScanState) (tf : ToFetch) :
    (detailPlan thresholdDays st tf).1.calls = st.calls := by
  unfold detailPlan
  by_cases h : (getKey st.results tf.channelId).isSome
  · rw [if_pos h]
  · rw [if_neg h]
    by_cases hf : jsStrFalsy (resolvedPid st.playlistIdMap tf) <;> simp [hf]

theorem detailPlan_cacheWrites (thresholdDays : Nat) (st : ScanState) (tf : ToFetch) :
    (detailPlan thresholdDays st tf).1.cacheWrites = st.cacheWrites := by
  unfold detailPlan
  by_cases h : (getKey st.results tf.channelId).isSome
  · rw [if_pos h]
  · rw [if_neg h]
    by_cases hf : jsStrFalsy (resolvedPid st.playlistIdMap tf) <;> simp [hf]

theorem detailPlan_results_frame (thresholdDays : Nat) (st : ScanState) (tf : ToFetch)
    (k : String) (hk : tf.channelId ≠ k) :
    getKey (detailPlan thresholdDays st tf).1.results k = getKey st.results k := by
  unfold detailPlan
  by_cases h : (getKey st.results tf.channelId).isSome
  · rw [if_pos h]
  · rw [if_neg h]
    by_cases hf : jsStrFalsy (resolvedPid st.playlistIdMap tf)
    · simp only [hf, if_true]
      exact getKey_setKey_ne _ _ hk
    · simp [hf]

theorem detailPlan_results_isSome (thresholdDays : Nat) (st : ScanState) (tf : ToFetch)
    (k : String) (h : (getKey st.results k).isSome) :
    (getKey (detailPlan thresholdDays st tf).1.results k).isSome := by
  unfold detailPlan
  by_cases hp : (getKey st.results tf.channelId).isSome
  · rw [if_pos hp]; exact h
  · rw [if_neg hp]
    by_cases hf : jsStrFalsy (resolvedPid st.playlistIdMap tf)
    · simp only [hf, if_true]
      exact getKey_isSome_setKey _ _ _ _ h
    · simpa [hf] using h

theorem detailPlan_snd_channelId (thresholdDays : Nat) (st : ScanState) (tf : ToFetch)
    (t : String × String) (h : (detailPlan thresholdDays st tf).2 = some t) :
    t.1 = tf.channelId ∧ t.2 = (resolvedPid st.playlistIdMap tf).getD "" ∧
      getKey st.results tf.channelId = none ∧
      jsStrFalsy (resolvedPid st.playlistIdMap tf) = false := by
  unfold detailPlan at h
  by_cases hp : (getKey st.results tf.channelId).isSome
  · rw [if_pos hp] at h
    simp at h
  · rw [if_neg hp] at h
    by_cases hf : jsStrFalsy (resolvedPid st.playlistIdMap tf)
    · simp [hf] at h
    · simp only [hf, Bool.false_eq_true, if_false] at h
      cases h
      exact ⟨rfl, rfl, by simpa using hp, by simpa using hf⟩

theorem detailPlan_results_nodup (thresholdDays : Nat) (st : ScanState) (tf : ToFetch)
    (h : (st.results.map Prod.fst).Nodup) :
    ((detailPlan thresholdDays st tf).1.results.map Prod.fst).Nodup := by
  unfold detailPlan
  by_cases hp : (getKey st.results tf.channelId).isSome
  · rw [if_pos hp]; exact h
  · rw [if_neg hp]
    by_cases hf : jsStrFalsy (resolvedPid st.playlistIdMap tf)
    · simp only [hf, if_true]
      exact setKey_nodup _ _ _ h
    · simpa [hf] using h

theorem plan_foldl_playlistIdMap (thresholdDays : Nat) (l : List ToFetch) :
    ∀ acc : ScanState × List (String × String),
      (l.foldl (planStep thresholdDays) acc).1.playlistIdMap =
        acc.1.playlistIdMap := by
  induction l with
  | nil => intro acc; rfl
  | cons tf rest ih =>
      intro acc
      rw [List.foldl_cons, ih]
      exact detailPlan_playlistIdMap _ _ _

theorem plan_foldl_calls (thresholdDays : Nat) (l : List ToFetch) :
    ∀ acc : ScanState × List (String × String),
      (l.foldl (planStep thresholdDays) acc).1.calls = acc.1.calls := by
  induction l with
  | nil => intro acc; rfl
  | cons tf rest ih =>
      intro acc
      rw [List.foldl_cons, ih]
      exact detailPlan_calls _ _ _

theorem plan_foldl_cacheWrites (thresholdDays : Nat) (l : List ToFetch) :
    ∀ acc : ScanState × List (String × String),
      (l.foldl (planStep thresholdDays) acc).1.cacheWrites = acc.1.cacheWrites := by
  induction l with
  | nil => intro acc; rfl
  | cons tf rest ih =>
      intro acc
      rw [List.foldl_cons, ih]
      exact detailPlan_cacheWrites _ _ _

theorem plan_foldl_results_isSome (thresholdDays : Nat) (l : List ToFetch) :
    ∀ (acc : ScanState × List (String × String)) (k : String),
      (getKey acc.1.results k).isSome →
      (getKey (l.foldl (planStep thresholdDays) acc).1.results k).isSome := by
  induction l with
  | nil => intro acc k h; exact h
  | cons tf rest ih =>
      intro acc k h
      rw [List.foldl_cons]
      exact ih _ _ (detailPlan_results_isSome _ _ _ _ h)

theorem plan_foldl_results_nodup (thresholdDays : Nat) (l : List ToFetch) :
    ∀ acc : ScanState × List (String × String),
      (acc.1.results.map Prod.fst).Nodup →
      ((l.foldl (planStep thresholdDays) acc).1.results.map Prod.fst).Nodup := by
  induction l with
  | nil => intro acc h; exact h
  | cons tf rest ih =>
      intro acc h
      rw [List.foldl_cons]
      exact ih _ (detailPlan_results_nodup _ _ _ h)

theorem plan_foldl_tasks_mono (thresholdDays : Nat) (l : List ToFetch) :
    ∀ (acc : ScanState × List (String × String)) (t : String × String),
      t ∈ acc.2 → t ∈ (l.foldl (planStep thresholdDays) acc).2 := by
  induction l with
  | nil => intro acc t h; exact h
  | cons tf rest ih =>
      intro acc t h
      rw [List.foldl_cons]
      exact ih _ _ (by simp [planStep, h])

theorem plan_foldl_task_mem (thresholdDays : Nat) (l : List ToFetch) :
    ∀ (acc : ScanState × List (String × String)) (t : String × String),
      t ∈ (l.foldl (planStep thresholdDays) acc).2 →
      t ∈ acc.2 ∨ ∃ tf ∈ l, t.1 = tf.channelId ∧
        t.2 = (resolvedPid acc.1.playlistIdMap tf).getD "" := by
  induction l with
  | nil => intro acc t h; exact Or.inl h
  | cons tf rest ih =>
      intro acc t h
      rw [List.foldl_cons] at h
      rcases ih _ _ h with h' | ⟨tf', htf', h1, h2⟩
      · simp only [planStep, List.mem_append] at h'
        rcases h' with h' | h'
        · exact Or.inl h'
        · cases hopt : (detailPlan thresholdDays acc.1 tf).2 with
          | none => rw [hopt] at h'; simp at h'
          | some u =>
              rw [hopt] at h'
              simp only [Option.toList_some, List.mem_singleton] at h'
              subst h'
              obtain ⟨h1, h2, _, _⟩ := detailPlan_snd_channelId _ _ _ _ hopt
              exact Or.inr ⟨tf, by simp, h1, h2⟩
      · refine Or.inr ⟨tf', by simp [htf'], h1, ?_⟩
        rw [h2]
        have : (planStep thresholdDays acc tf).1.playlistIdMap =
            acc.1.playlistIdMap := detailPlan_playlistIdMap _ _ _
        rw [this]

theorem plan_foldl_frame (thresholdDays : Nat) (l : List ToFetch) :
    ∀ (acc : ScanState × List (String × String)) (k : String),
      (∀ tf ∈ l, tf.channelId ≠ k) →
      getKey (l.foldl (planStep thresholdDays) acc).1.results k =
          getKey acc.1.results k ∧
        lastFor k (l.foldl (planStep thresholdDays) acc).2 = lastFor k acc.2 := by
  induction l with
  | nil => intro acc k _; exact ⟨rfl, rfl⟩
  | cons tf rest ih =>
      intro acc k h
      rw [List.foldl_cons]
      obtain ⟨h1, h2⟩ := ih (planStep thresholdDays acc tf) k
        fun tf' htf' => h tf' (by simp [htf'])
      constructor
      · rw [h1]
        exact detailPlan_results_frame _ _ _ _ (h tf (by simp))
      · rw [h2]
        simp only [planStep]
        rw [lastFor_append]
        cases hopt : (detailPlan thresholdDays acc.1 tf).2 with
        | none => simp [lastFor]
        | some u =>
            obtain ⟨h1', _, _, _⟩ := detailPlan_snd_channelId _ _ _ _ hopt
            have : u.1 ≠ k := by rw [h1']; exact h tf (by simp)
            simp [lastFor, this]

theorem plan_foldl_skip (thresholdDays : Nat) (l : List ToFetch) :
    ∀ (acc : ScanState × List (String × String)) (k : String),
      (getKey acc.1.results k).isSome →
      getKey (l.foldl (planStep thresholdDays) acc).1.results k =
          getKey acc.1.results k ∧
        lastFor k (l.foldl (planStep thresholdDays) acc).2 = lastFor k acc.2 := by
  induction l with
  | nil => intro acc k _; exact ⟨rfl, rfl⟩
  | cons tf rest ih =>
      intro acc k h
      rw [List.foldl_cons]
      by_cases hk : tf.channelId = k
      · have hskip : detailPlan thresholdDays acc.1 tf = (acc.1, none) :=
          detailPlan_skip _ _ _ (by rwa [hk])
        have hstep : planStep thresholdDays acc tf = (acc.1, acc.2) := by
          simp [planStep, hskip]
        rw [hstep]
        exact ih (acc.1, acc.2) k h
      · obtain ⟨h1, h2⟩ := ih (planStep thresholdDays acc tf) k
          (by
            refine Eq.mpr ?_ h
            congr 1
            exact congrArg Option.isSome (detailPlan_results_frame _ _ _ _ hk))
        constructor
        · rw [h1]
          exact detailPlan_results_frame _ _ _ _ hk
        · rw [h2]
          simp only [planStep]
          rw [lastFor_append]
          cases hopt : (detailPlan thresholdDays acc.1 tf).2 with
          | none => simp [lastFor]
          | some u =>
              obtain ⟨h1', _, _, _⟩ := detailPlan_snd_channelId _ _ _ _ hopt
              have : u.1 ≠ k := by rw [h1']; exact hk
              simp [lastFor, this]

theorem plan_foldl_total (thresholdDays : Nat) (l : List ToFetch) :
    ∀ (acc : ScanState × List (String × String)) (k : String),
      getKey acc.1.results k = none → (∃ tf ∈ l, tf.channelId = k) →
      (getKey (l.foldl (planStep thresholdDays) acc).1.results k).isSome ∨
        ∃ p, (k, p) ∈ (l.foldl (planStep thresholdDays) acc).2 := by
  induction l with
  | nil => intro acc k _ h; simp at h
  | cons tf rest ih =>
      intro acc k hnone hocc
      rw [List.foldl_cons]
      by_cases hk : tf.channelId = k
      · have hnone' : getKey acc.1.results tf.channelId = none := by rwa [hk]
        by_cases hf : jsStrFalsy (resolvedPid acc.1.playlistIdMap tf)
        · left
          apply plan_foldl_results_isSome
          have hres : getKey (planStep thresholdDays acc tf).1.results k =
              some (noUploadsResult thresholdDays) := by
            show getKey (detailPlan thresholdDays acc.1 tf).1.results k = _
            rw [detailPlan_falsy _ _ _ hnone' hf]
            show getKey
              (setKey acc.1.results tf.channelId (noUploadsResult thresholdDays)) k = _
            rw [hk]
            exact getKey_setKey_self _ _ _
          rw [hres]
          rfl
        · right
          refine ⟨(resolvedPid acc.1.playlistIdMap tf).getD "", ?_⟩
          apply plan_foldl_tasks_mono
          have htask : (planStep thresholdDays acc tf).2 =
              acc.2 ++ [(tf.channelId, (resolvedPid acc.1.playlistIdMap tf).getD "")] := by
            show acc.2 ++ (detailPlan thresholdDays acc.1 tf).2.toList = _
            rw [detailPlan_task _ _ _ hnone' (Bool.not_eq_true _ ▸ hf)]
            rfl
          rw [htask]
          simp [hk]
      · rcases hocc with ⟨tf', htf', hk'⟩
        rcases List.mem_cons.mp htf' with h | h
        · subst h; exact absurd hk' hk
        · exact ih _ _
            (by rw [show (planStep thresholdDays acc tf).1 =
                  (detailPlan thresholdDays acc.1 tf).1 from rfl,
                detailPlan_results_frame _ _ _ _ hk]; exact hnone)
            ⟨tf', h, hk'⟩

theorem plan_foldl_keys (thresholdDays : Nat) (l : List ToFetch) :
    ∀ (acc : ScanState × List (String × String)) (k : String),
      (getKey (l.foldl (planStep thresholdDays) acc).1.results k).isSome →
      (getKey acc.1.results k).isSome ∨ ∃ tf ∈ l, tf.channelId = k := by
  induction l with
  | nil => intro acc k h; exact Or.inl h
  | cons tf rest ih =>
      intro acc k h
      rw [List.foldl_cons] at h
      rcases ih _ _ h with h' | ⟨tf', htf', hk⟩
      · by_cases hk : tf.channelId = k
        · exact Or.inr ⟨tf, by simp, hk⟩
        · rw [show (planStep thresholdDays acc tf).1 =
              (detailPlan thresholdDays acc.1 tf).1 from rfl,
            detailPlan_results_frame _ _ _ _ hk] at h'
          exact Or.inl h'
      · exact Or.inr ⟨tf', List.mem_cons_of_mem _ htf', hk⟩

theorem plan_foldl_single (thresholdDays : Nat) (l : List ToFetch) :
    ∀ (acc : ScanState × List (String × String)) (k : String) (tf0 : ToFetch),
      getKey acc.1.results k = none →
      l.filter (fun tf => tf.channelId == k) = [tf0] →
      (jsStrFalsy (resolvedPid acc.1.playlistIdMap tf0) = true →
        getKey (l.foldl (planStep thresholdDays) acc).1.results k =
            some (noUploadsResult thresholdDays) ∧
          lastFor k (l.foldl (planStep thresholdDays) acc).2 = lastFor k acc.2) ∧
      (jsStrFalsy (resolvedPid acc.1.playlistIdMap tf0) = false →
        getKey (l.foldl (planStep thresholdDays) acc).1.results k = none ∧
          lastFor k (l.foldl (planStep thresholdDays) acc).2 =
            some (k, (resolvedPid acc.1.playlistIdMap tf0).getD "")) := by
  induction l with
  | nil => intro acc k tf0 _ hfil; simp at hfil
  | cons tf rest ih =>
      intro acc k tf0 hnone hfil
      rw [List.filter_cons] at hfil
      by_cases hk : tf.channelId = k
      · rw [if_pos (by simp [hk])] at hfil
        injection hfil with htf0 hrest
        have hnoocc : ∀ tf' ∈ rest, tf'.channelId ≠ k := by
          intro tf' htf'
          intro hc
          have : tf' ∈ rest.filter (fun tf => tf.channelId == k) :=
            List.mem_filter.mpr ⟨htf', by simp [hc]⟩
          rw [hrest] at this
          simp at this
        subst htf0
        have hnone' : getKey acc.1.results tf.channelId = none := by rwa [hk]
        constructor
        · intro hf
          rw [List.foldl_cons]
          have hres : getKey (planStep thresholdDays acc tf).1.results k =
              some (noUploadsResult thresholdDays) := by
            show getKey (detailPlan thresholdDays acc.1 tf).1.results k = _
            rw [detailPlan_falsy _ _ _ hnone' hf]
            show getKey
              (setKey acc.1.results tf.channelId (noUploadsResult thresholdDays)) k = _
            rw [hk]
            exact getKey_setKey_self _ _ _
          have htask : (planStep thresholdDays acc tf).2 = acc.2 := by
            show acc.2 ++ (detailPlan thresholdDays acc.1 tf).2.toList = _
            rw [detailPlan_falsy _ _ _ hnone' hf]
            simp
          obtain ⟨h1, h2⟩ := plan_foldl_frame thresholdDays rest
            (planStep thresholdDays acc tf) k hnoocc
          exact ⟨by rw [h1, hres], by rw [h2, htask]⟩
        · intro hf
          rw [List.foldl_cons]
          have hres : getKey (planStep thresholdDays acc tf).1.results k = none := by
            show getKey (detailPlan thresholdDays acc.1 tf).1.results k = _
            rw [detailPlan_task _ _ _ hnone' hf]
            exact hnone
          have htask : (planStep thresholdDays acc tf).2 =
              acc.2 ++ [(tf.channelId, (resolvedPid acc.1.playlistIdMap tf).getD "")] := by
            show acc.2 ++ (detailPlan thresholdDays acc.1 tf).2.toList = _
            rw [detailPlan_task _ _ _ hnone' hf]
            rfl
          obtain ⟨h1, h2⟩ := plan_foldl_frame thresholdDays rest
            (planStep thresholdDays acc tf) k hnoocc
          refine ⟨by rw [h1, hres], ?_⟩
          rw [h2, htask, lastFor_append]
          simp [lastFor, hk]
      · rw [if_neg (by simp [hk])] at hfil
        have hpm : (planStep thresholdDays acc tf).1.playlistIdMap =
            acc.1.playlistIdMap := detailPlan_playlistIdMap _ _ _
        have hnone' : getKey (planStep thresholdDays acc tf).1.results k = none := by
          rw [show (planStep thresholdDays acc tf).1 =
              (detailPlan thresholdDays acc.1 tf).1 from rfl,
            detailPlan_results_frame _ _ _ _ hk]
          exact hnone
        obtain ⟨ihf, iht⟩ := ih (planStep thresholdDays acc tf) k tf0 hnone' hfil
        rw [hpm] at ihf iht
        rw [List.foldl_cons]
        have htasks : lastFor k (planStep thresholdDays acc tf).2 = lastFor k acc.2 := by
          simp only [planStep]
          rw [lastFor_append]
          cases hopt : (detailPlan thresholdDays acc.1 tf).2 with
          | none => simp [lastFor]
          | some u =>
              obtain ⟨h1', _, _, _⟩ := detailPlan_snd_channelId _ _ _ _ hopt
              have : u.1 ≠ k := by rw [h1']; exact hk
              simp [lastFor, this]
        exact ⟨fun hf => ⟨(ihf hf).1, by rw [(ihf hf).2, htasks]⟩,
          fun hf => ⟨(iht hf).1, by rw [(iht hf).2]⟩⟩

end PlanLemmas

section ScanLemmas

/-- Stage views of a run of `fetchLastUploadDates`, for stating lemmas
about its internals (definitionally the `let`-bound stages of the main
function). -/
def scanPart (cache : String → Option CacheEntry) (now : Nat) (settings : Settings)
    (bypassCache : Bool) (channelIds : List String) :
    List (String × ResultEntry) × List ToFetch :=
  partitionCache cache settings.cacheTtlHours settings.thresholdDays now bypassCache
    channelIds

/-- Continued: the `needPlaylistId` list (lines 138-140). -/
def scanNeed (cache : String → Option CacheEntry) (now : Nat) (settings : Settings)
    (bypassCache : Bool) (channelIds : List String) : List String :=
  ((scanPart cache now settings bypassCache channelIds).2.filter
    fun c => jsStrFalsy c.cachedPlaylistId).map (·.channelId)

/-- Continued: the state after the batched `channels.list` stage. -/
def scanSt1 (net : Network) (cache : String → Option CacheEntry) (now : Nat)
    (settings : Settings) (bypassCache : Bool) (channelIds : List String) : ScanState :=
  batchPhase net settings.thresholdDays
    { results := (scanPart cache now settings bypassCache channelIds).1,
      playlistIdMap := [], calls := [], cacheWrites := [] }
    (chunks50 (scanNeed cache now settings bypassCache channelIds))

/-- Continued: the state and task list after the synchronous pass. -/
def scanPlanned (net : Network) (cache : String → Option CacheEntry) (now : Nat)
    (settings : Settings) (bypassCache : Bool) (channelIds : List String) :
    ScanState × List (String × String) :=
  planPhase settings.thresholdDays
    (scanSt1 net cache now settings bypassCache channelIds)
    (scanPart cache now settings bypassCache channelIds).2

theorem fetchLastUploadDates_eq_phases (net : Network)
    (cache : String → Option CacheEntry) (now : Nat) (channelIds : List String)
    (settings : Settings) (bypassCache : Bool) :
    fetchLastUploadDates net cache now channelIds settings bypassCache =
      if (scanPart cache now settings bypassCache channelIds).2.isEmpty then
        { results := (scanPart cache now settings bypassCache channelIds).1,
          playlistIdMap := [], calls := [], cacheWrites := [] }
      else
        taskPhase net settings.thresholdDays now
          (scanPlanned net cache now settings bypassCache channelIds).1
          (scanPlanned net cache now settings bypassCache channelIds).2 := rfl

theorem scanPart_snd_shape (cache : String → Option CacheEntry) (now : Nat)
    (settings : Settings) (bypassCache : Bool) (channelIds : List String)
    (tf : ToFetch) (h : tf ∈ (scanPart cache now settings bypassCache channelIds).2) :
    tf.channelId ∈ channelIds ∧
      tf = { channelId := tf.channelId,
             cachedPlaylistId := (cache tf.channelId).bind (·.uploadsPlaylistId) } ∧
      servedFromCache cache settings.cacheTtlHours now bypassCache tf.channelId =
        false := by
  rw [scanPart, partitionCache_snd] at h
  obtain ⟨cid, hcid, hsome⟩ := List.mem_filterMap.mp h
  by_cases hs : servedFromCache cache settings.cacheTtlHours now bypassCache cid
  · rw [if_pos hs] at hsome
    cases hsome
  · rw [if_neg hs] at hsome
    cases hsome
    exact ⟨hcid, rfl, by simpa using hs⟩

theorem scanNeed_subset (cache : String → Option CacheEntry) (now : Nat)
    (settings : Settings) (bypassCache : Bool) (channelIds : List String)
    (k : String) (h : k ∈ scanNeed cache now settings bypassCache channelIds) :
    ∃ tf ∈ (scanPart cache now settings bypassCache channelIds).2,
      tf.channelId = k ∧ jsStrFalsy tf.cachedPlaylistId = true := by
  rw [scanNeed] at h
  obtain ⟨tf, htf, hk⟩ := List.mem_map.mp h
  obtain ⟨htf', hpred⟩ := List.mem_filter.mp htf
  exact ⟨tf, htf', hk, hpred⟩

theorem chunks50_subset {γ : Type} (l : List γ) (c : List γ) (hc : c ∈ chunks50 l)
    (x : γ) (hx : x ∈ c) : x ∈ l := by
  rw [chunks50] at hc
  obtain ⟨j, _, hj⟩ := List.mem_map.mp hc
  subst hj
  exact List.mem_of_mem_drop (List.mem_of_mem_take hx)

theorem scan_calls_decomp (net : Network) (cache : String → Option CacheEntry)
    (now : Nat) (settings : Settings) (bypassCache : Bool)
    (channelIds : List String)
    (hne : (scanPart cache now settings bypassCache channelIds).2.isEmpty = false) :
    (fetchLastUploadDates net cache now channelIds settings bypassCache).calls =
      (chunks50 (scanNeed cache now settings bypassCache channelIds)).map Call.batch
        ++ (scanPlanned net cache now settings bypassCache channelIds).2.map
            fun t => Call.detail t.1 t.2 := by
  rw [fetchLastUploadDates_eq_phases, if_neg (by simp [hne])]
  rw [taskPhase_calls]
  congr 1
  show (planPhase settings.thresholdDays _ _).1.calls = _
  rw [planPhase, plan_foldl_calls]
  show (scanSt1 net cache now settings bypassCache channelIds).calls = _
  rw [scanSt1, batchPhase_calls]
  simp

theorem scan_writes_decomp (net : Network) (cache : String → Option CacheEntry)
    (now : Nat) (settings : Settings) (bypassCache : Bool)
    (channelIds : List String)
    (hne : (scanPart cache now settings bypassCache channelIds).2.isEmpty = false) :
    (fetchLastUploadDates net cache now channelIds settings bypassCache).cacheWrites =
      (scanPlanned net cache now settings bypassCache channelIds).2.filterMap
        (taskWrite net now) := by
  rw [fetchLastUploadDates_eq_phases, if_neg (by simp [hne])]
  rw [taskPhase_cacheWrites]
  have h1 : (scanPlanned net cache now settings bypassCache channelIds).1.cacheWrites
      = [] := by
    show (planPhase settings.thresholdDays _ _).1.cacheWrites = _
    rw [planPhase, plan_foldl_cacheWrites]
    show (scanSt1 net cache now settings bypassCache channelIds).cacheWrites = _
    rw [scanSt1, batchPhase_cacheWrites]
  rw [h1]
  simp

theorem scanPlanned_playlistIdMap (net : Network) (cache : String → Option CacheEntry)
    (now : Nat) (settings : Settings) (bypassCache : Bool)
    (channelIds : List String) :
    (scanPlanned net cache now settings bypassCache channelIds).1.playlistIdMap =
      (scanSt1 net cache now settings bypassCache channelIds).playlistIdMap := by
  show (planPhase settings.thresholdDays _ _).1.playlistIdMap = _
  rw [planPhase, plan_foldl_playlistIdMap]

theorem scan_task_canonical (net : Network) (cache : String → Option CacheEntry)
    (now : Nat) (settings : Settings) (bypassCache : Bool)
    (channelIds : List String) (t : String × String)
    (h : t ∈ (scanPlanned net cache now settings bypassCache channelIds).2) :
    t.1 ∈ channelIds ∧
      servedFromCache cache settings.cacheTtlHours now bypassCache t.1 = false ∧
      t.2 = (resolvedPid
        (scanSt1 net cache now settings bypassCache channelIds).playlistIdMap
        { channelId := t.1,
          cachedPlaylistId := (cache t.1).bind (·.uploadsPlaylistId) }).getD "" := by
  rw [scanPlanned, planPhase] at h
  rcases plan_foldl_task_mem _ _ _ _ h with h' | ⟨tf, htf, h1, h2⟩
  · simp at h'
  · obtain ⟨hmem, hshape, hserved⟩ := scanPart_snd_shape _ _ _ _ _ _ htf
    refine ⟨by rw [h1]; exact hmem, by rw [h1]; exact hserved, ?_⟩
    rw [h2]
    show (resolvedPid (scanSt1 net cache now settings bypassCache channelIds).playlistIdMap
      tf).getD "" = _
    rw [h1]
    conv_rhs => rw [← hshape]

theorem taskPhase_results_isSome (net : Network) (thresholdDays now : Nat)
    (tasks : List (String × String)) (st : ScanState) (k : String)
    (h : (getKey st.results k).isSome) :
    (getKey (taskPhase net thresholdDays now st tasks).results k).isSome := by
  rw [taskPhase_getKey]
  cases lastFor k tasks with
  | some u => simp
  | none => exact h

theorem scan_results_isSome_iff (net : Network) (cache : String → Option CacheEntry)
    (now : Nat) (settings : Settings) (bypassCache : Bool)
    (channelIds : List String) (k : String) :
    (getKey (fetchLastUploadDates net cache now channelIds settings
      bypassCache).results k).isSome ↔ k ∈ channelIds := by
  rw [fetchLastUploadDates_eq_phases]
  by_cases hemp : (scanPart cache now settings bypassCache channelIds).2.isEmpty
  · rw [if_pos hemp]
    show (getKey (scanPart cache now settings bypassCache channelIds).1 k).isSome ↔ _
    rw [scanPart, partitionCache_getKey]
    constructor
    · intro h
      by_cases hc : k ∈ channelIds ∧
          servedFromCache cache settings.cacheTtlHours now bypassCache k = true
      · exact hc.1
      · rw [if_neg hc] at h
        simp at h
    · intro hk
      by_cases hs : servedFromCache cache settings.cacheTtlHours now bypassCache k
      · rw [if_pos ⟨hk, hs⟩]
        simp
      · exfalso
        have hmem : (⟨k, (cache k).bind (·.uploadsPlaylistId)⟩ : ToFetch) ∈
            (scanPart cache now settings bypassCache channelIds).2 := by
          rw [scanPart, partitionCache_snd]
          exact List.mem_filterMap.mpr ⟨k, hk, by rw [if_neg hs]⟩
        rw [List.isEmpty_iff] at hemp
        rw [hemp] at hmem
        simp at hmem
  · rw [if_neg hemp]
    constructor
    · intro h
      rw [taskPhase_getKey] at h
      cases hlf : lastFor k
          (scanPlanned net cache now settings bypassCache channelIds).2 with
      | some u =>
          obtain ⟨hu, hk⟩ := lastFor_spec _ _ _ hlf
          have := (scan_task_canonical net cache now settings bypassCache
            channelIds u hu).1
          rwa [hk] at this
      | none =>
          rw [hlf] at h
          have h' := plan_foldl_keys settings.thresholdDays _ _ _ h
          rcases h' with h' | ⟨tf, htf, hk⟩
          · rcases batchPhase_results_keys _ _ _ _ _ h' with h'' | ⟨c, hc, hkc⟩
            · show _ ∈ channelIds
              have h3 : (getKey
                  (scanPart cache now settings bypassCache channelIds).1 k).isSome :=
                h''
              rw [scanPart, partitionCache_getKey] at h3
              by_cases hc : k ∈ channelIds ∧ servedFromCache cache
                  settings.cacheTtlHours now bypassCache k = true
              · exact hc.1
              · rw [if_neg hc] at h3
                simp at h3
            · have hkn := chunks50_subset _ _ hc _ hkc
              obtain ⟨tf, htf, hk, _⟩ := scanNeed_subset _ _ _ _ _ _ hkn
              have := (scanPart_snd_shape _ _ _ _ _ _ htf).1
              rwa [hk] at this
          · have := (scanPart_snd_shape _ _ _ _ _ _ htf).1
            rwa [hk] at this
    · intro hk
      by_cases hs : servedFromCache cache settings.cacheTtlHours now bypassCache k
      · apply taskPhase_results_isSome
        apply plan_foldl_results_isSome
        apply batchPhase_results_isSome
        show (getKey (scanPart cache now settings bypassCache channelIds).1 k).isSome
        rw [scanPart, partitionCache_getKey, if_pos ⟨hk, hs⟩]
        simp
      · have hmem : (⟨k, (cache k).bind (·.uploadsPlaylistId)⟩ : ToFetch) ∈
            (scanPart cache now settings bypassCache channelIds).2 := by
          rw [scanPart, partitionCache_snd]
          exact List.mem_filterMap.mpr ⟨k, hk, by rw [if_neg hs]⟩
        by_cases h1 : (getKey (scanSt1 net cache now settings bypassCache
            channelIds).results k).isSome
        · exact taskPhase_results_isSome _ _ _ _ _ _
            (plan_foldl_results_isSome _ _ _ _ h1)
        · have h1' : getKey (scanSt1 net cache now settings bypassCache
              channelIds).results k = none := by
            rwa [Option.not_isSome_iff_eq_none] at h1
          rcases plan_foldl_total settings.thresholdDays
              (scanPart cache now settings bypassCache channelIds).2
              (scanSt1 net cache now settings bypassCache channelIds, []) k h1'
              ⟨_, hmem, rfl⟩ with h2 | ⟨p, hp⟩
          · exact taskPhase_results_isSome _ _ _ _ _ _ h2
          · rw [taskPhase_getKey]
            have := lastFor_isSome k _ (k, p) hp rfl
            cases hlf : lastFor k
                (scanPlanned net cache now settings bypassCache channelIds).2 with
            | some u => simp
            | none =>
                rw [show (scanPlanned net cache now settings bypassCache
                  channelIds).2 = (planPhase settings.thresholdDays
                    (scanSt1 net cache now settings bypassCache channelIds)
                    (scanPart cache now settings bypassCache channelIds).2).2
                  from rfl] at hlf
                rw [planPhase] at hlf
                rw [hlf] at this
                simp at this

theorem scan_results_none_of_not_mem (net : Network)
    (cache : String → Option CacheEntry) (now : Nat) (settings : Settings)
    (bypassCache : Bool) (channelIds : List String) (k : String)
    (h : k ∉ channelIds) :
    getKey (fetchLastUploadDates net cache now channelIds settings
      bypassCache).results k = none := by
  rw [← Option.not_isSome_iff_eq_none]
  intro hs
  exact h ((scan_results_isSome_iff net cache now settings bypassCache
    channelIds k).mp hs)

theorem scan_results_nodup (net : Network) (cache : String → Option CacheEntry)
    (now : Nat) (settings : Settings) (bypassCache : Bool)
    (channelIds : List String) :
    ((fetchLastUploadDates net cache now channelIds settings
      bypassCache).results.map Prod.fst).Nodup := by
  rw [fetchLastUploadDates_eq_phases]
  by_cases hemp : (scanPart cache now settings bypassCache channelIds).2.isEmpty
  · rw [if_pos hemp]
    exact partitionCache_nodup _ _ _ _ _ _
  · rw [if_neg hemp]
    apply taskPhase_results_nodup
    apply plan_foldl_results_nodup
    apply batchPhase_results_nodup
    exact partitionCache_nodup _ _ _ _ _ _

theorem scan_fresh_no_occurrence (cache : String → Option CacheEntry) (now : Nat)
    (settings : Settings) (bypassCache : Bool) (channelIds : List String)
    (k : String)
    (hs : servedFromCache cache settings.cacheTtlHours now bypassCache k = true) :
    ∀ tf ∈ (scanPart cache now settings bypassCache channelIds).2,
      tf.channelId ≠ k := by
  intro tf htf hk
  have := (scanPart_snd_shape _ _ _ _ _ _ htf).2.2
  rw [hk, hs] at this
  cases this

theorem scan_fresh_served (net : Network) (cache : String → Option CacheEntry)
    (now : Nat) (settings : Settings) (bypassCache : Bool)
    (channelIds : List String) (k : String)
    (hs : servedFromCache cache settings.cacheTtlHours now bypassCache k = true) :
    (k ∈ channelIds →
      getKey (fetchLastUploadDates net cache now channelIds settings
          bypassCache).results k =
        some (uploadResult settings.thresholdDays now
          ((cache k).bind (·.lastUploadAt)))) ∧
    (∀ c, Call.batch c ∈ (fetchLastUploadDates net cache now channelIds settings
        bypassCache).calls → k ∉ c) ∧
    (∀ p, Call.detail k p ∉ (fetchLastUploadDates net cache now channelIds settings
        bypassCache).calls) ∧
    (∀ w, (k, w) ∉ (fetchLastUploadDates net cache now channelIds settings
        bypassCache).cacheWrites) := by
  have hnoocc := scan_fresh_no_occurrence cache now settings bypassCache channelIds
    k hs
  have hnotneed : k ∉ scanNeed cache now settings bypassCache channelIds := by
    intro hkn
    obtain ⟨tf, htf, hk, _⟩ := scanNeed_subset _ _ _ _ _ _ hkn
    exact hnoocc tf htf hk
  have hnochunk : ∀ c ∈ chunks50 (scanNeed cache now settings bypassCache channelIds),
      k ∉ c := fun c hc hkc => hnotneed (chunks50_subset _ _ hc _ hkc)
  have htask : ∀ t ∈ (scanPlanned net cache now settings bypassCache channelIds).2,
      t.1 ≠ k := by
    intro t ht hk
    have := (scan_task_canonical net cache now settings bypassCache channelIds
      t ht).2.1
    rw [hk, hs] at this
    cases this
  by_cases hemp : (scanPart cache now settings bypassCache channelIds).2.isEmpty
  · refine ⟨?_, ?_, ?_, ?_⟩
    · intro hk
      rw [fetchLastUploadDates_eq_phases, if_pos hemp]
      show getKey (scanPart cache now settings bypassCache channelIds).1 k = _
      rw [scanPart, partitionCache_getKey, if_pos ⟨hk, hs⟩]
    · intro c hc
      rw [fetchLastUploadDates_eq_phases, if_pos hemp] at hc
      simp at hc
    · intro p hp
      rw [fetchLastUploadDates_eq_phases, if_pos hemp] at hp
      simp at hp
    · intro w hw
      rw [fetchLastUploadDates_eq_phases, if_pos hemp] at hw
      simp at hw
  · have hemp' : (scanPart cache now settings bypassCache channelIds).2.isEmpty =
        false := by
      rwa [Bool.not_eq_true] at hemp
    refine ⟨?_, ?_, ?_, ?_⟩
    · intro hk
      rw [fetchLastUploadDates_eq_phases, if_neg hemp]
      rw [taskPhase_getKey]
      have hlf : lastFor k
          (scanPlanned net cache now settings bypassCache channelIds).2 = none :=
        lastFor_eq_none _ _ htask
      rw [hlf]
      have hplan := (plan_foldl_frame settings.thresholdDays
        (scanPart cache now settings bypassCache channelIds).2
        (scanSt1 net cache now settings bypassCache channelIds, []) k hnoocc).1
      rw [show (scanPlanned net cache now settings bypassCache channelIds).1 =
        (planPhase settings.thresholdDays
          (scanSt1 net cache now settings bypassCache channelIds)
          (scanPart cache now settings bypassCache channelIds).2).1 from rfl]
      rw [planPhase, hplan]
      rw [show scanSt1 net cache now settings bypassCache channelIds =
        batchPhase net settings.thresholdDays
          { results := (scanPart cache now settings bypassCache channelIds).1,
            playlistIdMap := [], calls := [], cacheWrites := [] }
          (chunks50 (scanNeed cache now settings bypassCache channelIds)) from rfl]
      rw [batchPhase_results_frame _ _ _ _ _ hnochunk]
      show getKey (scanPart cache now settings bypassCache channelIds).1 k = _
      rw [scanPart, partitionCache_getKey, if_pos ⟨hk, hs⟩]
    · intro c hc
      rw [scan_calls_decomp _ _ _ _ _ _ hemp'] at hc
      rcases List.mem_append.mp hc with h | h
      · obtain ⟨c', hc', he⟩ := List.mem_map.mp h
        injection he with he
        subst he
        exact hnochunk c' hc'
      · obtain ⟨t, _, he⟩ := List.mem_map.mp h
        cases he
    · intro p hp
      rw [scan_calls_decomp _ _ _ _ _ _ hemp'] at hp
      rcases List.mem_append.mp hp with h | h
      · obtain ⟨c', _, he⟩ := List.mem_map.mp h
        cases he
      · obtain ⟨t, ht, he⟩ := List.mem_map.mp h
        injection he with h1 h2
        exact htask t ht h1
    · intro w hw
      rw [scan_writes_decomp _ _ _ _ _ _ hemp'] at hw
      obtain ⟨t, ht, he⟩ := List.mem_filterMap.mp hw
      exact htask t ht (taskWrite_fst _ _ _ _ he).symm

theorem scan_write_spec (net : Network) (cache : String → Option CacheEntry)
    (now : Nat) (settings : Settings) (bypassCache : Bool)
    (channelIds : List String) (k : String) (w : CacheEntry)
    (h : (k, w) ∈ (fetchLastUploadDates net cache now channelIds settings
      bypassCache).cacheWrites) :
    w.lastCheckedAt = now ∧
      (∃ pid items, w.uploadsPlaylistId = some pid ∧ net.detail pid = .ok items ∧
        w.lastUploadAt = items.head?.bind (·.videoPublishedAt)) ∧
      getKey (fetchLastUploadDates net cache now channelIds settings
          bypassCache).results k =
        some (uploadResult settings.thresholdDays now w.lastUploadAt) ∧
      servedFromCache cache settings.cacheTtlHours now bypassCache k = false ∧
      ∀ w', (k, w') ∈ (fetchLastUploadDates net cache now channelIds settings
        bypassCache).cacheWrites → w' = w := by
  by_cases hemp : (scanPart cache now settings bypassCache channelIds).2.isEmpty
  · rw [fetchLastUploadDates_eq_phases, if_pos hemp] at h
    simp at h
  · have hemp' : (scanPart cache now settings bypassCache channelIds).2.isEmpty =
        false := by rwa [Bool.not_eq_true] at hemp
    rw [scan_writes_decomp _ _ _ _ _ _ hemp'] at h
    obtain ⟨t, ht, he⟩ := List.mem_filterMap.mp h
    have ht1 : t.1 = k := (taskWrite_fst _ _ _ _ he).symm
    obtain ⟨hmem, hserved, hpid⟩ := scan_task_canonical net cache now settings
      bypassCache channelIds t ht
    rcases hdet : net.detail t.2 with e | items
    · simp [taskWrite, hdet] at he
    · simp only [taskWrite, hdet, Option.some.injEq, Prod.mk.injEq] at he
      obtain ⟨he1, he2⟩ := he
      subst he2
      have hval : ∀ t' ∈ (scanPlanned net cache now settings bypassCache
          channelIds).2, t'.1 = k → t' = t := by
        intro t' ht' ht'1
        obtain ⟨_, _, hpid'⟩ := scan_task_canonical net cache now settings
          bypassCache channelIds t' ht'
        have : t'.2 = t.2 := by rw [hpid', hpid, ht'1, ht1]
        obtain ⟨a, b⟩ := t
        obtain ⟨a', b'⟩ := t'
        simp only at ht1 ht'1 this
        rw [ht'1, ht1, this]
      have hlast : (lastFor k (scanPlanned net cache now settings bypassCache
          channelIds).2).isSome := lastFor_isSome _ _ t ht ht1
      rw [Option.isSome_iff_exists] at hlast
      obtain ⟨u, hu⟩ := hlast
      obtain ⟨humem, hu1⟩ := lastFor_spec _ _ _ hu
      have hut : u = t := hval u humem hu1
      refine ⟨rfl, ⟨t.2, items, rfl, hdet, rfl⟩, ?_,
        by rwa [ht1] at hserved, ?_⟩
      · rw [fetchLastUploadDates_eq_phases, if_neg hemp, taskPhase_getKey, hu, hut]
        show some (taskOutcome net settings.thresholdDays now t.2) = _
        unfold taskOutcome
        rw [hdet]
      · intro w' hw'
        rw [fetchLastUploadDates_eq_phases, if_neg hemp] at hw'
        rw [show (taskPhase net settings.thresholdDays now
            (scanPlanned net cache now settings bypassCache channelIds).1
            (scanPlanned net cache now settings bypassCache channelIds).2).cacheWrites
            = (fetchLastUploadDates net cache now channelIds settings
              bypassCache).cacheWrites from by
          rw [fetchLastUploadDates_eq_phases, if_neg hemp]] at hw'
        rw [scan_writes_decomp _ _ _ _ _ _ hemp'] at hw'
        obtain ⟨t', ht', he'⟩ := List.mem_filterMap.mp hw'
        have ht'1 : t'.1 = k := (taskWrite_fst _ _ _ _ he').symm
        have := hval t' ht' ht'1
        subst this
        simp only [taskWrite, hdet, Option.some.injEq, Prod.mk.injEq] at he'
        exact he'.2.symm

theorem applyWrites_eq (writes : List (String × CacheEntry)) :
    ∀ (cache : String → Option CacheEntry) (cid : String),
      applyWrites cache writes cid =
        match lastFor cid writes with
        | some u => some u.2
        | none => cache cid := by
  induction writes with
  | nil => intro cache cid; rfl
  | cons w rest ih =>
      intro cache cid
      show applyWrites _ rest cid = _
      rw [ih]
      simp only [lastFor]
      cases lastFor cid rest with
      | some u => rfl
      | none =>
          by_cases hk : w.1 = cid
          · simp [hk]
          · simp [hk, Ne.symm hk]

theorem scan_all_fresh (net : Network) (cache : String → Option CacheEntry)
    (now : Nat) (settings : Settings) (bypassCache : Bool)
    (channelIds : List String)
    (h : ∀ k ∈ channelIds,
      servedFromCache cache settings.cacheTtlHours now bypassCache k = true) :
    fetchLastUploadDates net cache now channelIds settings bypassCache =
      { results := (scanPart cache now settings bypassCache channelIds).1,
        playlistIdMap := [], calls := [], cacheWrites := [] } := by
  have hnil : (scanPart cache now settings bypassCache channelIds).2 = [] := by
    rw [scanPart, partitionCache_snd]
    rw [List.filterMap_eq_nil]
    intro cid hcid
    rw [if_pos (h cid hcid)]
  rw [fetchLastUploadDates_eq_phases, if_pos (by rw [hnil]; rfl)]

end ScanLemmas

/-- Whether an optional server message mentions "quota" (falsy message
counts as not mentioning it). -/
def quotaMsg : Option String → Bool
  | some msg => mentionsQuota msg
  | none => false

theorem classify_mkApiErr (s : Nat) (m : Option String) :
    classify (mkApiErr s m) =
      if s == 403 && quotaMsg m then .quota_exceeded else .api_error := by
  unfold classify mkApiErr quotaMsg
  cases m with
  | none => rfl
  | some msg => rfl

/-- A network that answers every request with the same response. -/
def constNetwork (rb : Except ApiErr (List BatchItem))
    (rd : Except ApiErr (List DetailItem)) : Network :=
  { batch := fun _ => rb, detail := fun _ => rd }

/-- C10: calling the pipeline entry point with an empty identifier list
returns the empty result map and issues no network call at all (no batch
call and no detail call), for every configuration and every cache
state. -/
theorem C10_empty_input (net : Network) (cache : String → Option CacheEntry)
    (now : Nat) (settings : Settings) (bypassCache : Bool) :
    fetchLastUploadDates net cache now [] settings bypassCache =
      { results := [], playlistIdMap := [], calls := [], cacheWrites := [] } := rfl

/-- C1: for every non-empty input sequence of identifiers and every
configuration, the map returned by the pipeline entry point contains
exactly one result entry (carrying exactly one status field) for each
distinct submitted identifier, and no entry for any identifier that was
not submitted. -/
theorem C1_total_coverage (net : Network) (cache : String → Option CacheEntry)
    (now : Nat) (channelIds : List String) (settings : Settings)
    (bypassCache : Bool) (hne : channelIds ≠ []) :
    (∀ k ∈ channelIds,
      (getKey (fetchLastUploadDates net cache now channelIds settings
        bypassCache).results k).isSome) ∧
    (∀ k, k ∉ channelIds →
      getKey (fetchLastUploadDates net cache now channelIds settings
        bypassCache).results k = none) ∧
    ((fetchLastUploadDates net cache now channelIds settings
      bypassCache).results.map Prod.fst).Nodup := by
  refine ⟨fun k hk => ?_, fun k hk => ?_, scan_results_nodup _ _ _ _ _ _⟩
  · exact (scan_results_isSome_iff net cache now settings bypassCache
      channelIds k).mpr hk
  · exact scan_results_none_of_not_mem net cache now settings bypassCache
      channelIds k hk

theorem C1_total_coverage_witness :
    (∀ k ∈ ["a", "b"],
      (getKey (fetchLastUploadDates (constNetwork (.ok []) (.ok []))
        (fun _ => none) 5 ["a", "b"] ⟨365, 24, 6⟩ false).results k).isSome) ∧
    (∀ k, k ∉ ["a", "b"] →
      getKey (fetchLastUploadDates (constNetwork (.ok []) (.ok []))
        (fun _ => none) 5 ["a", "b"] ⟨365, 24, 6⟩ false).results k = none) ∧
    ((fetchLastUploadDates (constNetwork (.ok []) (.ok []))
      (fun _ => none) 5 ["a", "b"] ⟨365, 24, 6⟩ false).results.map Prod.fst).Nodup :=
  C1_total_coverage (constNetwork (.ok []) (.ok [])) (fun _ => none) 5
    ["a", "b"] ⟨365, 24, 6⟩ false (by decide)

/-- C3: the retrying fetcher retries only on status 403 or 429, sleeping
before each retry with a delay that starts at 1000 ms and doubles each
time, for at most 3 retries; in particular rate-limit responses on the
first three attempts followed by success on the fourth produce exactly
the sleeps 1000 ms, 2000 ms, 4000 ms before the success is returned. -/
theorem C3_backoff :
    (∀ (rs : List (HttpResp Nat)) (a : Nat) (sleeps : List Nat),
        fetchJsonWithRetry rs 3 = .ok a sleeps →
        sleeps.length ≤ 3 ∧
          sleeps = (List.range sleeps.length).map (fun i => 1000 * 2 ^ i) ∧
          ∀ i < sleeps.length, ∃ s m, rs.get? i = some (.failure s m) ∧
            (s = 403 ∨ s = 429)) ∧
    (∀ (rs : List (HttpResp Nat)) (e : ApiErr) (sleeps : List Nat),
        fetchJsonWithRetry rs 3 = .err e sleeps →
        sleeps.length ≤ 3 ∧
          sleeps = (List.range sleeps.length).map (fun i => 1000 * 2 ^ i) ∧
          ∀ i < sleeps.length, ∃ s m, rs.get? i = some (.failure s m) ∧
            (s = 403 ∨ s = 429)) ∧
    fetchJsonWithRetry
        [HttpResp.failure 429 none, HttpResp.failure 403 none,
          HttpResp.failure 429 none, HttpResp.success 7] 3 =
      .ok 7 [1000, 2000, 4000] := by
  refine ⟨fun rs a sleeps h => ?_, fun rs e sleeps h => ?_, rfl⟩
  · obtain ⟨h1, h2, _, h4⟩ := (fetchRetryGo_spec rs 3 1000).1 a sleeps h
    refine ⟨h1, h2, fun i hi => ?_⟩
    obtain ⟨s, m, hm, hr⟩ := h4 i hi
    exact ⟨s, m, hm, (rateLimited_iff s).mp hr⟩
  · obtain ⟨h1, h2, _, h4⟩ := (fetchRetryGo_spec rs 3 1000).2 e sleeps h
    refine ⟨h1, h2, fun i hi => ?_⟩
    obtain ⟨s, m, hm, hr⟩ := h4 i hi
    exact ⟨s, m, hm, (rateLimited_iff s).mp hr⟩

theorem C3_backoff_witness :
    ([1000, 2000, 4000] : List Nat).length ≤ 3 ∧
      ([1000, 2000, 4000] : List Nat) =
        (List.range ([1000, 2000, 4000] : List Nat).length).map
          (fun i => 1000 * 2 ^ i) ∧
      ∀ i < ([1000, 2000, 4000] : List Nat).length, ∃ s m,
        ([HttpResp.failure 429 none, HttpResp.failure 403 none,
          HttpResp.failure 429 none, HttpResp.success 7] : List (HttpResp Nat)).get? i
          = some (.failure s m) ∧ (s = 403 ∨ s = 429) :=
  C3_backoff.1
    [HttpResp.failure 429 none, HttpResp.failure 403 none,
      HttpResp.failure 429 none, HttpResp.success 7] 7 [1000, 2000, 4000] rfl

/-- C4: when the retrying fetcher finally fails, the raised failure is
classified `quota_exceeded` iff the final status code is 403 and the
server-supplied message mentions quota, and `api_error` otherwise, and it
carries the original status code and message. -/
theorem C4_error_classification (rs : List (HttpResp Nat)) (e : ApiErr)
    (sleeps : List Nat) (h : fetchJsonWithRetry rs 3 = .err e sleeps) :
    ∃ s m, rs.get? sleeps.length = some (.failure s m) ∧
      e.status = s ∧
      (classify e = .quota_exceeded ↔ s = 403 ∧ quotaMsg m = true) ∧
      (classify e = .api_error ↔ ¬(s = 403 ∧ quotaMsg m = true)) ∧
      (∀ msg, m = some msg → msg ≠ "" → e.message = msg) := by
  obtain ⟨_, _, ⟨s, m, hm, he, _⟩, _⟩ := (fetchRetryGo_spec rs 3 1000).2 e sleeps h
  subst he
  refine ⟨s, m, hm, rfl, ?_, ?_, ?_⟩
  · rw [classify_mkApiErr]
    by_cases hc : (s == 403 && quotaMsg m) = true
    · simp only [hc, if_true]
      rw [Bool.and_eq_true, beq_iff_eq] at hc
      simp [hc]
    · simp only [hc, if_false]
      rw [Bool.and_eq_true, beq_iff_eq] at hc
      simp only [not_and] at hc
      constructor
      · intro h'; cases h'
      · intro ⟨h1, h2⟩
        exact absurd h2 (hc h1)
  · rw [classify_mkApiErr]
    by_cases hc : (s == 403 && quotaMsg m) = true
    · simp only [hc, if_true]
      rw [Bool.and_eq_true, beq_iff_eq] at hc
      constructor
      · intro h'; cases h'
      · intro h'; exact absurd ⟨hc.1, hc.2⟩ h'
    · simp only [hc, if_false]
      rw [Bool.and_eq_true, beq_iff_eq] at hc
      simp only [not_and] at hc
      constructor
      · intro _
        intro ⟨h1, h2⟩
        exact hc h1 h2
      · intro _; rfl
  · intro msg hmsg hne
    subst hmsg
    unfold mkApiErr
    simp [hne]

theorem C4_error_classification_witness :
    ∃ s m,
      ([HttpResp.failure 403 (some "quotaExceeded"),
        HttpResp.failure 403 (some "quotaExceeded"),
        HttpResp.failure 403 (some "quotaExceeded"),
        HttpResp.failure 403 (some "quotaExceeded")] : List (HttpResp Nat)).get?
        ([1000, 2000, 4000] : List Nat).length = some (.failure s m) ∧
      (ApiErr.mk "quotaExceeded" 403 true).status = s ∧
      (classify (ApiErr.mk "quotaExceeded" 403 true) = .quota_exceeded ↔
        s = 403 ∧ quotaMsg m = true) ∧
      (classify (ApiErr.mk "quotaExceeded" 403 true) = .api_error ↔
        ¬(s = 403 ∧ quotaMsg m = true)) ∧
      (∀ msg, m = some msg → msg ≠ "" →
        (ApiErr.mk "quotaExceeded" 403 true).message = msg) :=
  C4_error_classification
    [HttpResp.failure 403 (some "quotaExceeded"),
      HttpResp.failure 403 (some "quotaExceeded"),
      HttpResp.failure 403 (some "quotaExceeded"),
      HttpResp.failure 403 (some "quotaExceeded")]
    (ApiErr.mk "quotaExceeded" 403 true) [1000, 2000, 4000] (by decide)

/-- C7: for every limiter capacity and every event trace, at no point are
more than `concurrency` tasks in flight; tasks start in submission (FIFO)
order; each finished task's outcome is delivered to its own submitter in
settlement order; and the scheduling state (running, queue, started) is
independent of whether tasks succeed or fail — a failure never prevents
sibling tasks from running. -/
theorem C7_limiter_contract :
    ∀ (concurrency : Nat) (events : List LEvent),
      (limiterExec concurrency events).running.length ≤ concurrency ∧
      (∃ rest, (limiterExec concurrency events).started ++ rest =
        submitsOf events) ∧
      (limiterExec concurrency events).delivered = finishesOf events ∧
      ((limiterExec concurrency (events.map forgetOutcome)).running =
          (limiterExec concurrency events).running ∧
        (limiterExec concurrency (events.map forgetOutcome)).queue =
          (limiterExec concurrency events).queue ∧
        (limiterExec concurrency (events.map forgetOutcome)).started =
          (limiterExec concurrency events).started) := by
  intro c events
  refine ⟨?_, ?_, ?_, ?_⟩
  · exact limiterExec_aux_running_le c events ⟨[], [], [], []⟩ (by simp)
  · refine ⟨(limiterExec c events).queue, ?_⟩
    have := limiterExec_aux_started_queue c events ⟨[], [], [], []⟩
    simpa using this
  · have := limiterExec_aux_delivered c events ⟨[], [], [], []⟩
    simpa using this
  · exact limiterExec_aux_sched c events ⟨[], [], [], []⟩ ⟨[], [], [], []⟩ rfl rfl rfl

/-- C5: an identifier whose cache entry is fresh, in a scan with
`bypassCache = false`, triggers no network call (it appears in no batch
chunk and no detail call is made on its behalf) and its result is built
from the cache: `daysAgo = floor((now - lastUploadAt)/86400000)` with
status `ok` when the cached timestamp is non-null, `no_uploads` when it
is null; no cache write is performed for it. -/
theorem C5_cache_short_circuit (net : Network) (cache : String → Option CacheEntry)
    (now : Nat) (channelIds : List String) (settings : Settings) (k : String)
    (hfresh : isFresh (cache k) settings.cacheTtlHours now = true) :
    (k ∈ channelIds →
      getKey (fetchLastUploadDates net cache now channelIds settings
          false).results k =
        some (uploadResult settings.thresholdDays now
          ((cache k).bind (·.lastUploadAt)))) ∧
    (∀ c, Call.batch c ∈ (fetchLastUploadDates net cache now channelIds settings
        false).calls → k ∉ c) ∧
    (∀ p, Call.detail k p ∉ (fetchLastUploadDates net cache now channelIds settings
        false).calls) ∧
    (∀ w, (k, w) ∉ (fetchLastUploadDates net cache now channelIds settings
        false).cacheWrites) ∧
    (∀ T, (cache k).bind (·.lastUploadAt) = some T →
      (uploadResult settings.thresholdDays now
          ((cache k).bind (·.lastUploadAt))).daysAgo =
        some (((now : Int) - (T : Int)).fdiv 86400000) ∧
      (uploadResult settings.thresholdDays now
        ((cache k).bind (·.lastUploadAt))).status = .ok) ∧
    ((cache k).bind (·.lastUploadAt) = none →
      (uploadResult settings.thresholdDays now
          ((cache k).bind (·.lastUploadAt))).status = .no_uploads ∧
      (uploadResult settings.thresholdDays now
        ((cache k).bind (·.lastUploadAt))).daysAgo = none) := by
  have hs : servedFromCache cache settings.cacheTtlHours now false k = true := by
    simp [servedFromCache, hfresh]
  obtain ⟨h1, h2, h3, h4⟩ := scan_fresh_served net cache now settings false
    channelIds k hs
  refine ⟨h1, h2, h3, h4, ?_, ?_⟩
  · intro T hT
    rw [hT]
    simp [uploadResult, daysAgo]
  · intro hT
    rw [hT]
    simp [uploadResult, daysAgo]

theorem C5_cache_short_circuit_witness :
    let cacheW : String → Option CacheEntry :=
      fun _ => some ⟨some "P", some 500, 900⟩
    (("a" : String) ∈ (["a"] : List String) →
      getKey (fetchLastUploadDates (constNetwork (.ok []) (.ok []))
          cacheW 1000 ["a"] ⟨365, 24, 6⟩ false).results "a" =
        some (uploadResult 365 1000 ((cacheW "a").bind (·.lastUploadAt)))) ∧
    (∀ c, Call.batch c ∈ (fetchLastUploadDates (constNetwork (.ok []) (.ok []))
        cacheW 1000 ["a"] ⟨365, 24, 6⟩ false).calls → ("a" : String) ∉ c) ∧
    (∀ p, Call.detail "a" p ∉ (fetchLastUploadDates (constNetwork (.ok []) (.ok []))
        cacheW 1000 ["a"] ⟨365, 24, 6⟩ false).calls) ∧
    (∀ w, (("a" : String), w) ∉ (fetchLastUploadDates
        (constNetwork (.ok []) (.ok []))
        cacheW 1000 ["a"] ⟨365, 24, 6⟩ false).cacheWrites) ∧
    (∀ T, (cacheW "a").bind (·.lastUploadAt) = some T →
      (uploadResult 365 1000 ((cacheW "a").bind (·.lastUploadAt))).daysAgo =
        some (((1000 : Int) - (T : Int)).fdiv 86400000) ∧
      (uploadResult 365 1000 ((cacheW "a").bind (·.lastUploadAt))).status = .ok) ∧
    ((cacheW "a").bind (·.lastUploadAt) = none →
      (uploadResult 365 1000 ((cacheW "a").bind (·.lastUploadAt))).status =
          .no_uploads ∧
      (uploadResult 365 1000 ((cacheW "a").bind (·.lastUploadAt))).daysAgo = none) :=
  C5_cache_short_circuit (constNetwork (.ok []) (.ok []))
    (fun _ => some ⟨some "P", some 500, 900⟩) 1000 ["a"] ⟨365, 24, 6⟩ "a" (by decide)

/-- C2: the source comment (youtubeApi.js line 197) and the spec both say
the extraction prefers `videoPublishedAt` and falls back to `publishedAt`,
but the code (lines 198-199) reads only
`item?.contentDetails?.videoPublishedAt ?? null` and never consults the
fallback field. On a response whose sole item has `videoPublishedAt`
absent but `publishedAt = 999` present, the pipeline extracts `null` and
records status `no_uploads` instead of using the fallback timestamp. -/
theorem C2_no_fallback_extraction :
    (([⟨none, some 999⟩] : List DetailItem).head?.bind (·.videoPublishedAt)
      = none) ∧
    getKey (fetchLastUploadDates
        (constNetwork (.ok [⟨"a", some "P"⟩]) (.ok [⟨none, some 999⟩]))
        (fun _ => none) 1000 ["a"] ⟨365, 24, 6⟩ false).results "a" =
      some ⟨none, none, 365, .no_uploads, none⟩ := by
  exact ⟨rfl, by decide⟩

theorem scanPart_filter_eq_nil (cache : String → Option CacheEntry) (now : Nat)
    (settings : Settings) (bypassCache : Bool) (channelIds : List String)
    (k : String) (h : k ∉ channelIds) :
    (scanPart cache now settings bypassCache channelIds).2.filter
      (fun tf => tf.channelId == k) = [] := by
  rw [List.filter_eq_nil_iff]
  intro tf htf
  have := (scanPart_snd_shape _ _ _ _ _ _ htf).1
  simp only [beq_iff_eq]
  intro hk
  rw [hk] at this
  exact h this

theorem scanPart_filter_singleton (cache : String → Option CacheEntry) (now : Nat)
    (settings : Settings) (bypassCache : Bool) (channelIds : List String)
    (k : String) (hnodup : channelIds.Nodup) (hmem : k ∈ channelIds)
    (hs : servedFromCache cache settings.cacheTtlHours now bypassCache k = false) :
    (scanPart cache now settings bypassCache channelIds).2.filter
      (fun tf => tf.channelId == k) =
      [⟨k, (cache k).bind (·.uploadsPlaylistId)⟩] := by
  rw [scanPart, partitionCache_snd]
  induction channelIds with
  | nil => simp at hmem
  | cons a rest ih =>
      rw [List.filterMap_cons]
      rw [List.nodup_cons] at hnodup
      by_cases hak : a = k
      · subst hak
        rw [if_neg (by rw [hs]; exact Bool.false_ne_true)]
        rw [List.filter_cons]
        rw [if_pos (by simp)]
        congr 1
        have hnot : a ∉ rest := hnodup.1
        rw [List.filter_eq_nil_iff]
        intro tf htf
        obtain ⟨cid, hcid, hsome⟩ := List.mem_filterMap.mp htf
        by_cases hsc : servedFromCache cache settings.cacheTtlHours now bypassCache
            cid = true
        · rw [if_pos hsc] at hsome
          cases hsome
        · rw [if_neg hsc] at hsome
          cases hsome
          simp only [beq_iff_eq]
          intro hk
          rw [hk] at hcid
          exact hnot hcid
      · have hmem' : k ∈ rest := by
          rcases List.mem_cons.mp hmem with h | h
          · exact absurd h.symm hak
          · exact h
        by_cases hsc : servedFromCache cache settings.cacheTtlHours now bypassCache
            a = true
        · rw [if_pos hsc]
          exact ih hnodup.2 hmem'
        · rw [if_neg hsc]
          rw [List.filter_cons]
          rw [if_neg (by simp [hak])]
          exact ih hnodup.2 hmem'

/-- C9: an identifier whose detail fetch fails after retries gets status
`api_error` or `quota_exceeded` and its stored cache entry (including the
cached secondary handle) is left exactly as it was; a cache write occurs
only on a successful detail fetch. -/
theorem C9_failure_preserves_cache (net : Network)
    (cache : String → Option CacheEntry) (now : Nat) (channelIds : List String)
    (settings : Settings) (bypassCache : Bool) (k : String) (p : String)
    (e : ApiErr) (hnodup : channelIds.Nodup) (hmem : k ∈ channelIds)
    (hstale : servedFromCache cache settings.cacheTtlHours now bypassCache k =
      false)
    (hhandle : (cache k).bind (·.uploadsPlaylistId) = some p) (hp : p ≠ "")
    (hfail : net.detail p = .error e) :
    getKey (fetchLastUploadDates net cache now channelIds settings
        bypassCache).results k = some (errorResult settings.thresholdDays e) ∧
    (errorResult settings.thresholdDays e).status = classify e ∧
    (classify e = .api_error ∨ classify e = .quota_exceeded) ∧
    applyWrites cache (fetchLastUploadDates net cache now channelIds settings
      bypassCache).cacheWrites k = cache k ∧
    (∀ k' w, (k', w) ∈ (fetchLastUploadDates net cache now channelIds settings
        bypassCache).cacheWrites →
      ∃ pid items, w.uploadsPlaylistId = some pid ∧
        net.detail pid = .ok items ∧
        w.lastUploadAt = items.head?.bind (·.videoPublishedAt) ∧
        w.lastCheckedAt = now) := by
  have hfil := scanPart_filter_singleton cache now settings bypassCache channelIds
    k hnodup hmem hstale
  rw [hhandle] at hfil
  have htfmem : (⟨k, some p⟩ : ToFetch) ∈
      (scanPart cache now settings bypassCache channelIds).2 := by
    have : (⟨k, some p⟩ : ToFetch) ∈
        (scanPart cache now settings bypassCache channelIds).2.filter
          (fun tf => tf.channelId == k) := by
      rw [hfil]; simp
    exact (List.mem_filter.mp this).1
  have hemp' : (scanPart cache now settings bypassCache channelIds).2.isEmpty =
      false := by
    cases hl : (scanPart cache now settings bypassCache channelIds).2 with
    | nil => rw [hl] at htfmem; simp at htfmem
    | cons a l => rfl
  have hemp : ¬(scanPart cache now settings bypassCache channelIds).2.isEmpty =
      true := by rw [hemp']; exact Bool.false_ne_true
  -- the identifier needs no batch resolution, so no chunk contains it
  have hnotneed : k ∉ scanNeed cache now settings bypassCache channelIds := by
    intro hkn
    obtain ⟨tf, htf, hk, hfalsy⟩ := scanNeed_subset _ _ _ _ _ _ hkn
    have : tf ∈ (scanPart cache now settings bypassCache channelIds).2.filter
        (fun tf => tf.channelId == k) :=
      List.mem_filter.mpr ⟨htf, by simp [hk]⟩
    rw [hfil] at this
    simp only [List.mem_singleton] at this
    rw [this] at hfalsy
    simp only [jsStrFalsy] at hfalsy
    rw [beq_iff_eq] at hfalsy
    exact hp hfalsy
  have hnochunk : ∀ c ∈ chunks50 (scanNeed cache now settings bypassCache
      channelIds), k ∉ c := fun c hc hkc => hnotneed (chunks50_subset _ _ hc _ hkc)
  have hst1 : getKey (scanSt1 net cache now settings bypassCache
      channelIds).results k = none := by
    rw [scanSt1, batchPhase_results_frame _ _ _ _ _ hnochunk]
    show getKey (scanPart cache now settings bypassCache channelIds).1 k = none
    rw [scanPart, partitionCache_getKey, if_neg]
    intro ⟨_, hsv⟩
    rw [hstale] at hsv
    cases hsv
  have hpid : resolvedPid (scanSt1 net cache now settings bypassCache
      channelIds).playlistIdMap (⟨k, some p⟩ : ToFetch) = some p := rfl
  have hfls : jsStrFalsy (resolvedPid (scanSt1 net cache now settings bypassCache
      channelIds).playlistIdMap (⟨k, some p⟩ : ToFetch)) = false := by
    rw [hpid]
    simp only [jsStrFalsy]
    rw [beq_eq_false_iff_ne]
    exact hp
  have hsingle := (plan_foldl_single settings.thresholdDays
    (scanPart cache now settings bypassCache channelIds).2
    (scanSt1 net cache now settings bypassCache channelIds, []) k
    (⟨k, some p⟩ : ToFetch) hst1 hfil).2 hfls
  obtain ⟨hplanres, hplantask⟩ := hsingle
  have hrun : getKey (fetchLastUploadDates net cache now channelIds settings
      bypassCache).results k = some (errorResult settings.thresholdDays e) := by
    rw [fetchLastUploadDates_eq_phases, if_neg hemp, taskPhase_getKey]
    rw [show (scanPlanned net cache now settings bypassCache channelIds).2 =
      (planPhase settings.thresholdDays
        (scanSt1 net cache now settings bypassCache channelIds)
        (scanPart cache now settings bypassCache channelIds).2).2 from rfl]
    rw [planPhase, hplantask]
    show some (taskOutcome net settings.thresholdDays now p) = _
    unfold taskOutcome
    rw [hfail]
  have hnowrite : ∀ w, (k, w) ∉ (fetchLastUploadDates net cache now channelIds
      settings bypassCache).cacheWrites := by
    intro w hw
    obtain ⟨_, _, hres, _, _⟩ := scan_write_spec net cache now settings bypassCache
      channelIds k w hw
    rw [hrun] at hres
    injection hres with hres
    have := congrArg ResultEntry.status hres
    simp only [errorResult, uploadResult, classify] at this
    by_cases h1 : w.lastUploadAt.isSome <;> by_cases h2 : e.isQuota <;>
      simp [h1, h2] at this
  refine ⟨hrun, rfl, ?_, ?_, ?_⟩
  · unfold classify
    by_cases h2 : e.isQuota
    · right; simp [h2]
    · left; simp [h2]
  · rw [applyWrites_eq]
    have : lastFor k (fetchLastUploadDates net cache now channelIds settings
        bypassCache).cacheWrites = none := by
      apply lastFor_eq_none
      intro t ht hk1
      exact hnowrite t.2 (by rw [← hk1]; exact ht)
    rw [this]
  · intro k' w hw
    obtain ⟨hchecked, ⟨pid, items, h1, h2, h3⟩, _, _, _⟩ := scan_write_spec net cache
      now settings bypassCache channelIds k' w hw
    exact ⟨pid, items, h1, h2, h3, hchecked⟩

theorem C9_failure_preserves_cache_witness :
    let cacheW : String → Option CacheEntry := fun _ => some ⟨some "P", some 5, 1⟩
    let netW : Network := constNetwork (.ok []) (.error ⟨"boom", 500, false⟩)
    getKey (fetchLastUploadDates netW cacheW 10000000 ["a"] ⟨365, 1, 6⟩
        false).results "a" = some (errorResult 365 ⟨"boom", 500, false⟩) ∧
    (errorResult 365 ⟨"boom", 500, false⟩).status = classify ⟨"boom", 500, false⟩ ∧
    (classify ⟨"boom", 500, false⟩ = .api_error ∨
      classify ⟨"boom", 500, false⟩ = .quota_exceeded) ∧
    applyWrites cacheW (fetchLastUploadDates netW cacheW 10000000 ["a"]
      ⟨365, 1, 6⟩ false).cacheWrites "a" = cacheW "a" ∧
    (∀ k' w, (k', w) ∈ (fetchLastUploadDates netW cacheW 10000000 ["a"]
        ⟨365, 1, 6⟩ false).cacheWrites →
      ∃ pid items, w.uploadsPlaylistId = some pid ∧
        netW.detail pid = .ok items ∧
        w.lastUploadAt = items.head?.bind (·.videoPublishedAt) ∧
        w.lastCheckedAt = 10000000) :=
  C9_failure_preserves_cache (constNetwork (.ok []) (.error ⟨"boom", 500, false⟩))
    (fun _ => some ⟨some "P", some 5, 1⟩) 10000000 ["a"] ⟨365, 1, 6⟩ false "a" "P"
    ⟨"boom", 500, false⟩ (by decide) (by decide) (by decide) (by decide)
    (by decide) rfl

theorem filterMap_eq_map_over {α β : Type} (l : List α) (f : α → Option β)
    (g : α → β) (hfg : ∀ x ∈ l, f x = some (g x)) : l.filterMap f = l.map g := by
  induction l with
  | nil => rfl
  | cons a rest ih =>
      rw [List.filterMap_cons, hfg a (by simp), List.map_cons,
        ih fun x hx => hfg x (by simp [hx])]

theorem batchStep_ok_results (net : Network) (thresholdDays : Nat) (st : ScanState)
    (b : List String) (data : List BatchItem) (h : net.batch b = .ok data) :
    (batchStep net thresholdDays st b).results = st.results := by
  simp [batchStep, h]

theorem batchStep_err_results (net : Network) (thresholdDays : Nat) (st : ScanState)
    (b : List String) (e : ApiErr) (h : net.batch b = .error e) :
    (batchStep net thresholdDays st b).results =
      b.foldl (fun r cid => setKey r cid (errorResult thresholdDays e)) st.results := by
  simp [batchStep, h]

theorem batchStep_err_pm (net : Network) (thresholdDays : Nat) (st : ScanState)
    (b : List String) (e : ApiErr) (h : net.batch b = .error e) :
    (batchStep net thresholdDays st b).playlistIdMap = st.playlistIdMap := by
  simp [batchStep, h]

theorem batchStep_ok_pm (net : Network) (thresholdDays : Nat) (st : ScanState)
    (b : List String) (data : List BatchItem) (h : net.batch b = .ok data) :
    (batchStep net thresholdDays st b).playlistIdMap =
      b.foldl (fun pm cid => if (getKey pm cid).isSome then pm else setKey pm cid none)
        (data.foldl (fun pm item => setKey pm item.id item.uploads)
          st.playlistIdMap) := by
  simp [batchStep, h]

theorem batchStep_ok_items_getKey (net : Network) (thresholdDays : Nat)
    (st : ScanState) (chunk : List String) (f : String → Option String)
    (hnet : net.batch chunk = .ok (chunk.map fun id => ⟨id, f id⟩)) (k : String) :
    getKey (batchStep net thresholdDays st chunk).playlistIdMap k =
      if k ∈ chunk then some (f k) else getKey st.playlistIdMap k := by
  rw [batchStep_ok_pm _ _ _ _ _ hnet]
  rw [backfill_eq_of_isSome _ _
    (fun cid hcid => by rw [foldl_setKey_items_getKey, if_pos hcid]; rfl)]
  rw [foldl_setKey_items_getKey]

/-- C6: with 120 cache-miss identifiers that have no cached handle,
exactly 3 batch calls are issued with chunk sizes 50, 50 and 20; when the
second chunk's call fails after retries, exactly its identifiers receive
the classified error status and are excluded from detail fetching, while
the identifiers of the other chunks are resolved and proceed to their own
detail outcome, unaffected. -/
theorem C6_chunking_and_isolation (net : Network)
    (cache : String → Option CacheEntry) (now : Nat) (ids : List String)
    (settings : Settings) (bypassCache : Bool) (h : String → String) (e : ApiErr)
    (hlen : ids.length = 120) (hnodup : ids.Nodup)
    (hcache : ∀ id ∈ ids, cache id = none)
    (hh : ∀ id ∈ ids, h id ≠ "")
    (hA : net.batch (ids.take 50) =
      .ok ((ids.take 50).map fun id => ⟨id, some (h id)⟩))
    (hB : net.batch ((ids.drop 50).take 50) = .error e)
    (hC : net.batch (ids.drop 100) =
      .ok ((ids.drop 100).map fun id => ⟨id, some (h id)⟩)) :
    ((fetchLastUploadDates net cache now ids settings bypassCache).calls.filter
        isBatchCall =
      [Call.batch (ids.take 50), Call.batch ((ids.drop 50).take 50),
        Call.batch (ids.drop 100)] ∧
      (ids.take 50).length = 50 ∧ ((ids.drop 50).take 50).length = 50 ∧
      (ids.drop 100).length = 20) ∧
    (∀ k ∈ (ids.drop 50).take 50,
      getKey (fetchLastUploadDates net cache now ids settings
          bypassCache).results k =
        some (errorResult settings.thresholdDays e) ∧
      (errorResult settings.thresholdDays e).status = classify e ∧
      ∀ p, Call.detail k p ∉
        (fetchLastUploadDates net cache now ids settings bypassCache).calls) ∧
    (∀ k, k ∈ ids.take 50 ∨ k ∈ ids.drop 100 →
      getKey (fetchLastUploadDates net cache now ids settings
          bypassCache).results k =
        some (taskOutcome net settings.thresholdDays now (h k))) := by
  -- basic shape facts
  have hserved : ∀ k ∈ ids,
      servedFromCache cache settings.cacheTtlHours now bypassCache k = false := by
    intro k hk
    unfold servedFromCache
    rw [hcache k hk]
    show (!bypassCache && isFresh none settings.cacheTtlHours now) = false
    simp [isFresh]
  have hparts : (scanPart cache now settings bypassCache ids).2 =
      ids.map fun id => (⟨id, none⟩ : ToFetch) := by
    rw [scanPart, partitionCache_snd]
    apply filterMap_eq_map_over
    intro x hx
    rw [if_neg (by rw [hserved x hx]; exact Bool.false_ne_true), hcache x hx]
    rfl
  have hids_ne : ids ≠ [] := by
    intro h0
    rw [h0] at hlen
    simp at hlen
  have hemp' : (scanPart cache now settings bypassCache ids).2.isEmpty = false := by
    rw [hparts]
    cases hcase : ids with
    | nil => exact absurd hcase hids_ne
    | cons a l => rfl
  have hemp : ¬(scanPart cache now settings bypassCache ids).2.isEmpty = true := by
    rw [hemp']
    exact Bool.false_ne_true
  have hneed : scanNeed cache now settings bypassCache ids = ids := by
    rw [scanNeed, hparts, List.filter_map]
    have h1 : ((fun tf => jsStrFalsy tf.cachedPlaylistId) ∘
        fun id => (⟨id, none⟩ : ToFetch)) = fun _ => true := by
      funext x
      rfl
    rw [h1, List.filter_eq_self.mpr fun _ _ => rfl, List.map_map]
    have h2 : ((fun c : ToFetch => c.channelId) ∘
        fun id => (⟨id, none⟩ : ToFetch)) = fun x => x := by
      funext x
      rfl
    rw [h2]
    exact List.map_id ids
  have hchunks : chunks50 (scanNeed cache now settings bypassCache ids) =
      [ids.take 50, (ids.drop 50).take 50, ids.drop 100] := by
    rw [hneed]
    unfold chunks50
    rw [hlen]
    rw [show (120 + 49) / 50 = 3 from rfl, show List.range 3 = [0, 1, 2] from rfl]
    rw [List.map_cons, List.map_cons, List.map_cons, List.map_nil]
    rw [show 50 * 0 = 0 from rfl, show 50 * 1 = 50 from rfl,
      show 50 * 2 = 100 from rfl, List.drop_zero]
    rw [show (ids.drop 100).take 50 = ids.drop 100 from
      List.take_of_length_le (by rw [List.length_drop, hlen]; omega)]
  -- disjointness of the three chunks
  have hsplit : ids = ids.take 50 ++ ((ids.drop 50).take 50 ++ ids.drop 100) := by
    conv_lhs => rw [← List.take_append_drop 50 ids]
    congr 1
    conv_lhs => rw [← List.take_append_drop 50 (ids.drop 50)]
    congr 1
    rw [List.drop_drop]
  have hnodup_split :
      (ids.take 50 ++ ((ids.drop 50).take 50 ++ ids.drop 100)).Nodup :=
    hsplit ▸ hnodup
  have hdisj1 := (List.nodup_append.mp hnodup_split).2.2
  have hnodupBC := (List.nodup_append.mp hnodup_split).2.1
  have hdisj2 := (List.nodup_append.mp hnodupBC).2.2
  have hAnotB : ∀ k ∈ ids.take 50, k ∉ (ids.drop 50).take 50 := fun k hk hk' =>
    hdisj1 hk (List.mem_append.mpr (Or.inl hk'))
  have hAnotC : ∀ k ∈ ids.take 50, k ∉ ids.drop 100 := fun k hk hk' =>
    hdisj1 hk (List.mem_append.mpr (Or.inr hk'))
  have hCnotB : ∀ k ∈ ids.drop 100, k ∉ (ids.drop 50).take 50 := fun k hk hk' =>
    hdisj2 hk' hk
  have hmemA : ∀ k ∈ ids.take 50, k ∈ ids := fun k hk =>
    List.mem_of_mem_take hk
  have hmemB : ∀ k ∈ (ids.drop 50).take 50, k ∈ ids := fun k hk =>
    List.mem_of_mem_drop (List.mem_of_mem_take hk)
  have hmemC : ∀ k ∈ ids.drop 100, k ∈ ids := fun k hk =>
    List.mem_of_mem_drop hk
  -- partition results are empty
  have hpart1 : ∀ k, getKey (scanPart cache now settings bypassCache ids).1 k
      = none := by
    intro k
    rw [scanPart, partitionCache_getKey, if_neg]
    intro ⟨hk, hsv⟩
    rw [hserved k hk] at hsv
    cases hsv
  -- the state after the batch phase
  have hst1results : ∀ k,
      getKey (scanSt1 net cache now settings bypassCache ids).results k =
        if k ∈ (ids.drop 50).take 50 then some (errorResult settings.thresholdDays e)
        else none := by
    intro k
    rw [scanSt1, hchunks]
    show getKey (batchStep net settings.thresholdDays
      (batchStep net settings.thresholdDays
        (batchStep net settings.thresholdDays _ (ids.take 50))
        ((ids.drop 50).take 50)) (ids.drop 100)).results k = _
    rw [batchStep_ok_results _ _ _ _ _ hC, batchStep_err_results _ _ _ _ _ hB,
      foldl_setKey_const_getKey, batchStep_ok_results _ _ _ _ _ hA]
    by_cases hk : k ∈ (ids.drop 50).take 50
    · rw [if_pos hk, if_pos hk]
    · rw [if_neg hk, if_neg hk]
      exact hpart1 k
  have hst1pm : ∀ k, k ∈ ids.take 50 ∨ k ∈ ids.drop 100 →
      getKey (scanSt1 net cache now settings bypassCache ids).playlistIdMap k =
        some (some (h k)) := by
    intro k hk
    rw [scanSt1, hchunks]
    show getKey (batchStep net settings.thresholdDays
      (batchStep net settings.thresholdDays
        (batchStep net settings.thresholdDays _ (ids.take 50))
        ((ids.drop 50).take 50)) (ids.drop 100)).playlistIdMap k = _
    rw [batchStep_ok_items_getKey _ _ _ _ _ hC, batchStep_err_pm _ _ _ _ _ hB,
      batchStep_ok_items_getKey _ _ _ _ _ hA]
    rcases hk with hk | hk
    · rw [if_neg (fun hc => hAnotC k hk hc), if_pos hk]
    · rw [if_pos hk]
  -- per-identifier plan behaviour
  have hsingle : ∀ k ∈ ids,
      (scanPart cache now settings bypassCache ids).2.filter
        (fun tf => tf.channelId == k) = [(⟨k, none⟩ : ToFetch)] := by
    intro k hk
    have := scanPart_filter_singleton cache now settings bypassCache ids k hnodup
      hk (hserved k hk)
    rwa [hcache k hk] at this
  have hplanAC : ∀ k, k ∈ ids.take 50 ∨ k ∈ ids.drop 100 →
      getKey (scanPlanned net cache now settings bypassCache ids).1.results k =
          none ∧
        lastFor k (scanPlanned net cache now settings bypassCache ids).2 =
          some (k, h k) := by
    intro k hk
    have hkids : k ∈ ids := by
      rcases hk with hk | hk
      · exact hmemA k hk
      · exact hmemC k hk
    have hknotB : k ∉ (ids.drop 50).take 50 := by
      rcases hk with hk | hk
      · exact hAnotB k hk
      · exact hCnotB k hk
    have hnone : getKey (scanSt1 net cache now settings bypassCache ids).results k
        = none := by
      rw [hst1results, if_neg hknotB]
    have hpidval : resolvedPid
        (scanSt1 net cache now settings bypassCache ids).playlistIdMap
        (⟨k, none⟩ : ToFetch) = some (h k) := by
      unfold resolvedPid
      show jsCoalesce none
        ((getKey (scanSt1 net cache now settings bypassCache ids).playlistIdMap
          k).join) = _
      rw [hst1pm k hk]
      rfl
    have hfls : jsStrFalsy (resolvedPid
        (scanSt1 net cache now settings bypassCache ids).playlistIdMap
        (⟨k, none⟩ : ToFetch)) = false := by
      rw [hpidval]
      show (h k == "") = false
      rw [beq_eq_false_iff_ne]
      exact hh k hkids
    have := (plan_foldl_single settings.thresholdDays
      (scanPart cache now settings bypassCache ids).2
      (scanSt1 net cache now settings bypassCache ids, []) k
      (⟨k, none⟩ : ToFetch) hnone (hsingle k hkids)).2 hfls
    obtain ⟨h1, h2⟩ := this
    refine ⟨h1, ?_⟩
    show lastFor k ((scanPart cache now settings bypassCache ids).2.foldl
      (planStep settings.thresholdDays)
      (scanSt1 net cache now settings bypassCache ids, [])).2 = _
    rw [h2, hpidval]
    rfl
  have hplanB : ∀ k ∈ (ids.drop 50).take 50,
      getKey (scanPlanned net cache now settings bypassCache ids).1.results k =
          some (errorResult settings.thresholdDays e) ∧
        lastFor k (scanPlanned net cache now settings bypassCache ids).2 =
          none := by
    intro k hk
    have hsome : (getKey (scanSt1 net cache now settings bypassCache
        ids).results k).isSome := by
      rw [hst1results, if_pos hk]
      rfl
    have := plan_foldl_skip settings.thresholdDays
      (scanPart cache now settings bypassCache ids).2
      (scanSt1 net cache now settings bypassCache ids, []) k hsome
    obtain ⟨h1, h2⟩ := this
    constructor
    · have h3 : getKey (scanSt1 net cache now settings bypassCache ids).results k =
          some (errorResult settings.thresholdDays e) := by
        rw [hst1results, if_pos hk]
      exact h1.trans h3
    · exact h2
  refine ⟨⟨?_, ?_, ?_, ?_⟩, ?_, ?_⟩
  · rw [scan_calls_decomp _ _ _ _ _ _ hemp', List.filter_append]
    rw [List.filter_eq_self.mpr (fun c hc => by
      obtain ⟨ch, _, hch⟩ := List.mem_map.mp hc
      rw [← hch]
      rfl)]
    rw [List.filter_eq_nil_iff.mpr (fun c hc => by
      obtain ⟨t, _, ht⟩ := List.mem_map.mp hc
      rw [← ht]
      simp [isBatchCall])]
    rw [List.append_nil, hchunks]
    rfl
  · rw [List.length_take, hlen]
    omega
  · rw [List.length_take, List.length_drop, hlen]
    omega
  · rw [List.length_drop, hlen]
  · intro k hk
    obtain ⟨h1, h2⟩ := hplanB k hk
    refine ⟨?_, rfl, ?_⟩
    · rw [fetchLastUploadDates_eq_phases, if_neg hemp, taskPhase_getKey, h2, h1]
    · intro p hp
      rw [scan_calls_decomp _ _ _ _ _ _ hemp'] at hp
      rcases List.mem_append.mp hp with hp | hp
      · obtain ⟨c, _, hc⟩ := List.mem_map.mp hp
        cases hc
      · obtain ⟨t, ht, hc⟩ := List.mem_map.mp hp
        injection hc with hc1 hc2
        have := lastFor_isSome k
          (scanPlanned net cache now settings bypassCache ids).2 t ht hc1
        rw [h2] at this
        simp at this
  · intro k hk
    obtain ⟨h1, h2⟩ := hplanAC k hk
    rw [fetchLastUploadDates_eq_phases, if_neg hemp, taskPhase_getKey, h2]

/-- A concrete list of 120 distinct identifiers. -/
def ids120 : List String :=
  (List.range 120).map fun i => String.mk [Char.ofNat (65 + i)]

/-- A concrete network for the chunking scenario: the second chunk's
batch call fails, every other batch call resolves each id to a handle. -/
def netC6 : Network :=
  { batch := fun c =>
      if c == (ids120.drop 50).take 50 then .error ⟨"err", 500, false⟩
      else .ok (c.map fun id => ⟨id, some ("P" ++ id)⟩)
    detail := fun _ => .ok [] }

set_option maxRecDepth 4000 in
theorem C6_chunking_and_isolation_witness :
    ((fetchLastUploadDates netC6 (fun _ => none) 7 ids120 ⟨365, 24, 6⟩
        false).calls.filter isBatchCall =
      [Call.batch (ids120.take 50), Call.batch ((ids120.drop 50).take 50),
        Call.batch (ids120.drop 100)] ∧
      (ids120.take 50).length = 50 ∧ ((ids120.drop 50).take 50).length = 50 ∧
      (ids120.drop 100).length = 20) ∧
    (∀ k ∈ (ids120.drop 50).take 50,
      getKey (fetchLastUploadDates netC6 (fun _ => none) 7 ids120 ⟨365, 24, 6⟩
          false).results k =
        some (errorResult 365 ⟨"err", 500, false⟩) ∧
      (errorResult 365 ⟨"err", 500, false⟩).status = classify ⟨"err", 500, false⟩ ∧
      ∀ p, Call.detail k p ∉
        (fetchLastUploadDates netC6 (fun _ => none) 7 ids120 ⟨365, 24, 6⟩
          false).calls) ∧
    (∀ k, k ∈ ids120.take 50 ∨ k ∈ ids120.drop 100 →
      getKey (fetchLastUploadDates netC6 (fun _ => none) 7 ids120 ⟨365, 24, 6⟩
          false).results k =
        some (taskOutcome netC6 365 7 ("P" ++ k))) :=
  C6_chunking_and_isolation netC6 (fun _ => none) 7 ids120 ⟨365, 24, 6⟩ false
    (fun id => "P" ++ id) ⟨"err", 500, false⟩ (by decide) (by decide)
    (fun _ _ => rfl) (by decide) rfl rfl rfl

theorem isFresh_mono (entry : Option CacheEntry) (ttl now1 now2 : Nat)
    (hle : now1 ≤ now2) (h : isFresh entry ttl now2 = true) :
    isFresh entry ttl now1 = true := by
  cases entry with
  | none => simpa [isFresh] using h
  | some e =>
      simp only [isFresh, Bool.and_eq_true, bne_iff_ne, decide_eq_true_eq] at h ⊢
      exact ⟨h.1, by omega⟩

/-- C8, counterexample to the claim as stated: scanning a single
identifier whose batch resolution fails leaves no cache entry behind, so
re-running the scan with `bypassCache = false` one millisecond later
(well inside the 24-hour TTL) issues the batch network call again — the
claim's "the second run issues no additional network calls" is false on
the code. -/
theorem C8_idempotence_cex :
    ((1001 : Nat) - 1000 < 24 * 3600000) ∧
    (fetchLastUploadDates (constNetwork (.error ⟨"boom", 500, false⟩) (.ok []))
        (applyWrites (fun _ => none)
          (fetchLastUploadDates
            (constNetwork (.error ⟨"boom", 500, false⟩) (.ok []))
            (fun _ => none) 1000 ["a"] ⟨365, 24, 6⟩ false).cacheWrites)
        1001 ["a"] ⟨365, 24, 6⟩ false).calls ≠ [] := by
  constructor
  · decide
  · decide

/-- C8, amended: running the scan twice in succession on the same
identifier list with `bypassCache = false` yields identical output on the
second run and no network calls, provided every identifier's cache entry
(as left by the first run) is still fresh at the second run's start and
the elapsed time does not change any entry's floor-day age.  (As stated,
the claim is false: an identifier whose first-run fetch failed, or whose
handle resolved to null, leaves no fresh entry and is re-fetched — see
the counterexample.) -/
theorem C8_idempotence_amended (net : Network) (cache : String → Option CacheEntry)
    (now1 now2 : Nat) (channelIds : List String) (settings : Settings)
    (hle : now1 ≤ now2)
    (hfresh : ∀ k ∈ channelIds,
      isFresh (applyWrites cache
          (fetchLastUploadDates net cache now1 channelIds settings
            false).cacheWrites k)
        settings.cacheTtlHours now2 = true)
    (hstab : ∀ k ∈ channelIds,
      (applyWrites cache
          (fetchLastUploadDates net cache now1 channelIds settings
            false).cacheWrites k).all
        (fun e2 => daysAgo now2 e2.lastUploadAt == daysAgo now1 e2.lastUploadAt)
        = true) :
    (fetchLastUploadDates net
        (applyWrites cache (fetchLastUploadDates net cache now1 channelIds settings
          false).cacheWrites)
        now2 channelIds settings false).calls = [] ∧
    (fetchLastUploadDates net
        (applyWrites cache (fetchLastUploadDates net cache now1 channelIds settings
          false).cacheWrites)
        now2 channelIds settings false).cacheWrites = [] ∧
    ∀ k, getKey (fetchLastUploadDates net
        (applyWrites cache (fetchLastUploadDates net cache now1 channelIds settings
          false).cacheWrites)
        now2 channelIds settings false).results k =
      getKey (fetchLastUploadDates net cache now1 channelIds settings
        false).results k := by
  have hserved2 : ∀ k ∈ channelIds,
      servedFromCache
        (applyWrites cache (fetchLastUploadDates net cache now1 channelIds settings
          false).cacheWrites)
        settings.cacheTtlHours now2 false k = true := by
    intro k hk
    unfold servedFromCache
    rw [hfresh k hk]
    rfl
  have hrun2 := scan_all_fresh net
    (applyWrites cache (fetchLastUploadDates net cache now1 channelIds settings
      false).cacheWrites)
    now2 settings false channelIds hserved2
  refine ⟨by rw [hrun2], by rw [hrun2], ?_⟩
  intro k
  by_cases hk : k ∈ channelIds
  · rw [hrun2]
    show getKey (scanPart
      (applyWrites cache (fetchLastUploadDates net cache now1 channelIds settings
        false).cacheWrites)
      now2 settings false channelIds).1 k = _
    rw [scanPart, partitionCache_getKey, if_pos ⟨hk, hserved2 k hk⟩]
    by_cases hw : ∃ w, (k, w) ∈ (fetchLastUploadDates net cache now1 channelIds
        settings false).cacheWrites
    · obtain ⟨w, hwmem⟩ := hw
      obtain ⟨_, _, hres1, _, huniq⟩ := scan_write_spec net cache now1 settings
        false channelIds k w hwmem
      have hcache2 : applyWrites cache (fetchLastUploadDates net cache now1
          channelIds settings false).cacheWrites k = some w := by
        rw [applyWrites_eq]
        have hsome := lastFor_isSome k _ (k, w) hwmem rfl
        rw [Option.isSome_iff_exists] at hsome
        obtain ⟨u, hu⟩ := hsome
        obtain ⟨humem, hu1⟩ := lastFor_spec _ _ _ hu
        have : u.2 = w := by
          have : (k, u.2) ∈ (fetchLastUploadDates net cache now1 channelIds
              settings false).cacheWrites := by
            have : u = (k, u.2) := by
              obtain ⟨a, b⟩ := u
              simp only at hu1
              rw [hu1]
            rwa [← this]
          exact huniq u.2 this
        rw [hu]
        show some u.2 = some w
        rw [this]
      rw [hcache2, hres1]
      have hst := hstab k hk
      rw [hcache2] at hst
      simp only [Option.all_some, beq_iff_eq] at hst
      show some (uploadResult settings.thresholdDays now2 w.lastUploadAt) = _
      unfold uploadResult
      rw [hst]
    · have hnowrite : ∀ t ∈ (fetchLastUploadDates net cache now1 channelIds
          settings false).cacheWrites, t.1 ≠ k := by
        intro t ht hk1
        exact hw ⟨t.2, by
          have : t = (k, t.2) := by
            obtain ⟨a, b⟩ := t
            simp only at hk1
            rw [hk1]
          rwa [← this]⟩
      have hcache2 : applyWrites cache (fetchLastUploadDates net cache now1
          channelIds settings false).cacheWrites k = cache k := by
        rw [applyWrites_eq, lastFor_eq_none _ _ hnowrite]
      have hfresh1 : isFresh (cache k) settings.cacheTtlHours now1 = true := by
        have := hfresh k hk
        rw [hcache2] at this
        exact isFresh_mono _ _ _ _ hle this
      have hserved1 : servedFromCache cache settings.cacheTtlHours now1 false k =
          true := by
        unfold servedFromCache
        rw [hfresh1]
        rfl
      have hres1 := (scan_fresh_served net cache now1 settings false channelIds k
        hserved1).1 hk
      rw [hcache2, hres1]
      obtain ⟨e1, he1⟩ : ∃ e1, cache k = some e1 := by
        cases hc : cache k with
        | none => rw [hc] at hfresh1; simp [isFresh] at hfresh1
        | some e1 => exact ⟨e1, rfl⟩
      have hst := hstab k hk
      rw [hcache2, he1] at hst
      simp only [Option.all_some, beq_iff_eq] at hst
      rw [he1]
      show some (uploadResult settings.thresholdDays now2 e1.lastUploadAt) = _
      show _ = some (uploadResult settings.thresholdDays now1
        ((some e1).bind (·.lastUploadAt)))
      unfold uploadResult
      rw [hst]
      rfl
  · rw [scan_results_none_of_not_mem _ _ _ _ _ _ _ hk,
      scan_results_none_of_not_mem _ _ _ _ _ _ _ hk]

theorem C8_idempotence_amended_witness :
    let netS : Network := constNetwork (.ok [⟨"a", some "P"⟩]) (.ok [⟨some 500, none⟩])
    (fetchLastUploadDates netS
        (applyWrites (fun _ => none) (fetchLastUploadDates netS (fun _ => none)
          1000000 ["a"] ⟨365, 24, 6⟩ false).cacheWrites)
        1000000 ["a"] ⟨365, 24, 6⟩ false).calls = [] ∧
    (fetchLastUploadDates netS
        (applyWrites (fun _ => none) (fetchLastUploadDates netS (fun _ => none)
          1000000 ["a"] ⟨365, 24, 6⟩ false).cacheWrites)
        1000000 ["a"] ⟨365, 24, 6⟩ false).cacheWrites = [] ∧
    ∀ k, getKey (fetchLastUploadDates netS
        (applyWrites (fun _ => none) (fetchLastUploadDates netS (fun _ => none)
          1000000 ["a"] ⟨365, 24, 6⟩ false).cacheWrites)
        1000000 ["a"] ⟨365, 24, 6⟩ false).results k =
      getKey (fetchLastUploadDates netS (fun _ => none) 1000000 ["a"]
        ⟨365, 24, 6⟩ false).results k :=
  C8_idempotence_amended
    (constNetwork (.ok [⟨"a", some "P"⟩]) (.ok [⟨some 500, none⟩]))
    (fun _ => none) 1000000 1000000 ["a"] ⟨365, 24, 6⟩ (by decide) (by decide)
    (by decide)

end YtsCleaner
